import Mathlib

set_option maxHeartbeats 1000000

/- Shallow embedding of the real-time presence and mutation engine of the
   social-mapping websocket server (production file `src/unnamed/part_002`,
   a copy of `websocket-server.js`; the mongoose schema is
   `src/server/models/Activity.js`).

   Conventions: JS string values that may be `undefined` are `Option String`
   (`none` = `undefined`); JS `Map` and `Set` (insertion-ordered) are
   association lists and duplicate-free lists with insertion-order-preserving
   operations; the MongoDB store is a list of activity documents behind a
   connectivity flag (`safeDbOperation` skips the operation and returns the
   fallback when disconnected or on error); `new Date()` readings are an
   abstract `Nat` clock value supplied per event.  Handlers are modelled as
   run-to-completion state transformers returning the next state and the
   list of emitted socket events, which matches the single-threaded event
   loop with no interleaving between events. -/

/-- JS truthiness of a possibly-`undefined` string: `undefined` and `""` are falsy. -/
def jsTruthyS : Option String → Bool
  | none => false
  | some s => s ≠ ""

/-- JS `a || d` for possibly-`undefined` numbers, where `0` is falsy
(used for `minimumVotes || voteThreshold || 1`). -/
def jsOrNat : Option Nat → Nat → Nat
  | none, d => d
  | some n, d => if n = 0 then d else n

/-- JS `a || d` for possibly-`undefined` strings, where `""` is falsy
(used for `thresholdType || 'minimum'`). -/
def jsOrStr : Option String → String → String
  | none, d => d
  | some s, d => if s = "" then d else s

/-- First-match association-list lookup (JS `Map.get`). -/
def alookup {α β : Type} [DecidableEq α] : List (α × β) → α → Option β
  | [], _ => none
  | (k, v) :: rest, k' => if k = k' then some v else alookup rest k'

/-- JS `Map.set`: update the entry in place if the key is present
(preserving insertion order), else append a new entry at the end. -/
def aset {α β : Type} [DecidableEq α] : List (α × β) → α → β → List (α × β)
  | [], k, v => [(k, v)]
  | (k', v') :: rest, k, v => if k' = k then (k, v) :: rest else (k', v') :: aset rest k v

/-- JS `Map.delete`: remove the entry with the given key. -/
def adel {α β : Type} [DecidableEq α] : List (α × β) → α → List (α × β)
  | [], _ => []
  | (k', v') :: rest, k => if k' = k then adel rest k else (k', v') :: adel rest k

/-- JS `Set.add`: append at the end unless already present. -/
def sadd {α : Type} [DecidableEq α] (l : List α) (a : α) : List α :=
  if a ∈ l then l else l ++ [a]

/-- JS `Set.delete`: remove the element. -/
def sdel {α : Type} [DecidableEq α] : List α → α → List α
  | [], _ => []
  | x :: rest, a => if x = a then sdel rest a else x :: sdel rest a

/-- Per-connection record (`connections` map values: `{ userId, activityIds }`). -/
structure Conn where
  userId : Option String
  activityIds : List (Option String)
deriving DecidableEq, Repr

/-- Tag status enum of the mongoose tag schema. -/
inductive TagStatus where
  | pending
  | approved
  | rejected
deriving DecidableEq, Repr

/-- Vote subdocument (`voteSchema`), also the shape of `data.vote` in
`vote_tag` payloads; payload fields may be `undefined`. -/
structure Vote where
  userId : Option String
  userName : Option String
  timestamp : Nat
deriving DecidableEq, Repr

/-- Comment subdocument (`commentSchema`); copied verbatim by `add_tag`. -/
structure Comment where
  id : String
  userId : String
  userName : String
  text : String
  timestamp : Nat
deriving DecidableEq, Repr

/-- Stored tag (`tagSchema` plus the `createdAt` field `add_tag` writes). -/
structure Tag where
  id : String
  text : String
  creatorId : String
  creatorName : Option String
  votes : List Vote
  comments : List Comment
  commentCount : Nat
  hasNewComments : Bool
  status : TagStatus
  createdAt : Nat
deriving DecidableEq, Repr

/-- Participant subdocument (`participantSchema`). -/
structure ParticipantDoc where
  id : String
  name : String
  isConnected : Bool
  hasCompletedTagging : Option Bool
deriving DecidableEq, Repr

/-- Positioned tag instance (`positionSchema`); coordinates kept abstract as `Int`. -/
structure Position where
  tagId : String
  instanceId : Option String
  x : Int
  y : Int
  annotation : Option String
deriving DecidableEq, Repr

/-- Mapping submission (`mappingSchema`). -/
structure MappingDoc where
  userId : String
  userName : String
  positions : List Position
  isComplete : Bool
deriving DecidableEq, Repr

/-- Ranking item (`rankingItemSchema`). -/
structure RankingItem where
  tagId : String
  rank : Nat
  note : Option String
deriving DecidableEq, Repr

/-- Ranking submission (`rankingSchema`). -/
structure RankingDoc where
  userId : String
  userName : String
  items : List RankingItem
  isComplete : Bool
deriving DecidableEq, Repr

/-- The `settings.tagCreation` fields read by the socket handlers
(`enableVoting`, `thresholdType`, `minimumVotes`, `voteThreshold`,
`topNCount`); threshold counts are modelled as `Nat`. -/
structure TagCreationSettings where
  enableVoting : Bool
  voteThreshold : Option Nat
  thresholdType : Option String
  minimumVotes : Option Nat
  topNCount : Option Nat
deriving DecidableEq, Repr

/-- Activity settings; only the `tagCreation` subdocument is ever read by the
socket handlers (the `entryView`/`mapping`/`ranking`/`results` subdocuments
are opaque to this core), and `tagCreation` may be absent
(`activity.settings.tagCreation?.…`). -/
structure Settings where
  tagCreation : Option TagCreationSettings
deriving DecidableEq, Repr

/-- Durable activity document (`activitySchema`), restricted to the fields
the socket handlers read or write. -/
structure ActivityDoc where
  id : String
  settings : Settings
  createdAt : Nat
  updatedAt : Nat
  status : String
  participants : List ParticipantDoc
  phase : String
  tags : List Tag
  mappings : List MappingDoc
  rankings : List RankingDoc
deriving DecidableEq, Repr

/-- The opaque document store: a connectivity flag (`isMongoConnected` and
model availability, the guard of `safeDbOperation`) and the activity
collection. -/
structure Store where
  connected : Bool
  docs : List ActivityDoc
deriving DecidableEq, Repr

/-- Whole in-process server state: `connectionCount`, the `connections` map
(socketId to `{userId, activityIds}`), the `activities` presence map
(activityId to set of userIds), the `operationsInProgress` dedup set, and
the durable store. -/
structure ServerState where
  connectionCount : Int
  connections : List (String × Conn)
  activities : List (Option String × List (Option String))
  operationsInProgress : List String
  store : Store
deriving DecidableEq, Repr

/-- Connection-limit configuration: `MAX_CONNECTIONS` and the derived
`SOFT_LIMIT` (both fixed at boot from the environment). -/
structure ServerConfig where
  maxConnections : Int
  softLimit : Int
deriving DecidableEq, Repr

/-- Entry of a `participants_updated` payload (`{id, name, isConnected}`). -/
structure ParticipantInfo where
  id : Option String
  name : Option String
  isConnected : Bool
deriving DecidableEq, Repr

/-- Payload of an `add_tag` event: `{activityId, tag}` where the client tag
carries `id`, `text`, `creatorId`, optional `creatorName`, and possibly
absent `votes`/`comments` arrays. -/
structure TagPayload where
  id : String
  text : String
  creatorId : String
  creatorName : Option String
  votes : Option (List Vote)
  comments : Option (List Comment)
deriving DecidableEq, Repr

/-- Payload of an `add_tag` event. -/
structure AddTagData where
  activityId : Option String
  tag : TagPayload
deriving DecidableEq, Repr

/-- Payload of a `vote_tag` event: `{activityId, tagId, vote}`. -/
structure VoteTagData where
  activityId : Option String
  tagId : Option String
  vote : Vote
deriving DecidableEq, Repr

/-- Delivery scope of an emitted event: `socket.to(room)` excludes the
originating connection, `io.to(room)` does not, `io.emit` is global,
`socket.emit` goes back to the sender only. -/
inductive Target where
  | roomExceptSender (room : Option String)
  | room (room : Option String)
  | allClients
  | sender
deriving DecidableEq, Repr

/-- Events emitted by the handlers, with the payload fields the server fills in. -/
inductive Emit where
  | connectionRejected (reason message : String) (currentConnections maxConnections : Int)
      (estimatedWaitTime : String)
  | capacityWarning (message : String) (currentConnections maxConnections : Int)
  | connectionAccepted (message : String) (currentConnections maxConnections : Int)
      (capacityLevel : String)
  | participantsUpdated (target : Target) (activityId : Option String)
      (participants : List ParticipantInfo)
  | tagAdded (target : Target) (data : AddTagData)
  | tagVoted (target : Target) (data : VoteTagData)
  | activityDeleted (target : Target) (activityId : Option String)
deriving DecidableEq, Repr

/-- `getActivityParticipants`: the participant set of an activity, `[]` if absent. -/
def listParticipants (acts : List (Option String × List (Option String)))
    (aid : Option String) : List (Option String) :=
  (alookup acts aid).getD []

/-- `Activity.findOne({id: activityId})`: first document whose `id` equals the
(possibly `undefined`) payload id. -/
def findActivity : List ActivityDoc → Option String → Option ActivityDoc
  | [], _ => none
  | d :: rest, aid => if some d.id = aid then some d else findActivity rest aid

/-- `activity.tags.find(t => t.id === tagId)`. -/
def findTag : List Tag → Option String → Option Tag
  | [], _ => none
  | t :: rest, tid => if some t.id = tid then some t else findTag rest tid

/-- Mongoose `activity.save()` after in-place mutation: replace the first
document with the same `id` by the mutated document. -/
def saveActivity : List ActivityDoc → ActivityDoc → List ActivityDoc
  | [], _ => []
  | d :: rest, a => if d.id = a.id then a :: rest else d :: saveActivity rest a

/-- Mutation of the first participant matching the (possibly `undefined`)
user id, as done through `participants.find(...)` followed by in-place field
assignment in `join_activity`. -/
def setConnectedTrue : List ParticipantDoc → Option String → List ParticipantDoc
  | [], _ => []
  | p :: rest, uid =>
    if some p.id = uid then { p with isConnected := true } :: rest
    else p :: setConnectedTrue rest uid

/-- Positional `$` update of `"participants.$.isConnected": false` on the
first participant matching the user id. -/
def setConnectedFalse : List ParticipantDoc → Option String → List ParticipantDoc
  | [], _ => []
  | p :: rest, uid =>
    if some p.id = uid then { p with isConnected := false } :: rest
    else p :: setConnectedFalse rest uid

/-- Match condition of `updateOne({id: activityId, "participants.id": userId}, ...)`. -/
def disconnectMatches (d : ActivityDoc) (aid uid : Option String) : Prop :=
  some d.id = aid ∧ ∃ p ∈ d.participants, some p.id = uid

instance (d : ActivityDoc) (aid uid : Option String) :
    Decidable (disconnectMatches d aid uid) := by
  unfold disconnectMatches; infer_instance

/-- `Activity.updateOne({id, "participants.id": userId}, {$set: {"participants.$.isConnected": false, updatedAt}})`:
update the first matching document, returning the new collection and the
modified count. -/
def updateOneDisconnect : List ActivityDoc → Option String → Option String → Nat →
    List ActivityDoc × Nat
  | [], _, _, _ => ([], 0)
  | d :: rest, aid, uid, now =>
    if disconnectMatches d aid uid then
      ({ d with participants := setConnectedFalse d.participants uid, updatedAt := now } :: rest, 1)
    else
      let r := updateOneDisconnect rest aid uid now
      (d :: r.1, r.2)

/-- The leave/disconnect durable write wrapped in `safeDbOperation`: skipped
entirely when the store is unreachable. -/
def safeUpdateDisconnect (store : Store) (aid uid : Option String) (now : Nat) : Store :=
  if store.connected then { store with docs := (updateOneDisconnect store.docs aid uid now).1 }
  else store

/-- `Activity.deleteOne({id: activityId})`: remove the first matching document,
returning the new collection and the deleted count. -/
def deleteOneById : List ActivityDoc → Option String → List ActivityDoc × Nat
  | [], _ => ([], 0)
  | d :: rest, aid =>
    if some d.id = aid then (rest, 1)
    else
      let r := deleteOneById rest aid
      (d :: r.1, r.2)

/-- Whether a tag with this id already exists (`activity.tags.find(t => t.id === data.tag.id)`). -/
def tagExists : List Tag → String → Bool
  | [], _ => false
  | t :: rest, tid => if t.id = tid then true else tagExists rest tid

/-- Number of stored tags carrying a given identifier. -/
def countTag : List Tag → String → Nat
  | [], _ => 0
  | t :: rest, tid => (if t.id = tid then 1 else 0) + countTag rest tid

/-- `activity.settings.tagCreation?.enableVoting` as a truthiness test. -/
def votingEnabled (st : Settings) : Bool :=
  match st.tagCreation with
  | some tc => tc.enableVoting
  | none => false

/-- The tag document `add_tag` pushes: payload fields spread, `votes`/`comments`
defaulted to `[]`, counters reset, status `pending` iff voting is enabled,
`createdAt` stamped. -/
def buildTag (p : TagPayload) (enableVoting : Bool) (now : Nat) : Tag :=
  { id := p.id
    text := p.text
    creatorId := p.creatorId
    creatorName := p.creatorName
    votes := p.votes.getD []
    comments := p.comments.getD []
    commentCount := 0
    hasNewComments := false
    status := if enableVoting then TagStatus.pending else TagStatus.approved
    createdAt := now }

/-- `tag.votes.findIndex(v => v.userId === userId) !== -1`. -/
def hasVoteBy : List Vote → Option String → Bool
  | [], _ => false
  | w :: rest, uid => if w.userId = uid then true else hasVoteBy rest uid

/-- `tag.votes.splice(existingVoteIndex, 1)`: drop the first vote by this user. -/
def removeFirstVote : List Vote → Option String → List Vote
  | [], _ => []
  | w :: rest, uid => if w.userId = uid then rest else w :: removeFirstVote rest uid

/-- Vote toggle of `vote_tag`: retract the existing vote by this user, else
append a new vote record. -/
def toggleVote (votes : List Vote) (v : Vote) : List Vote :=
  if hasVoteBy votes v.userId then removeFirstVote votes v.userId else votes ++ [v]

/-- `thresholdType || 'minimum'`. -/
def effectiveThresholdType (tc : TagCreationSettings) : String :=
  jsOrStr tc.thresholdType "minimum"

/-- `minimumVotes || voteThreshold || 1`. -/
def effectiveMinVotes (tc : TagCreationSettings) : Nat :=
  jsOrNat tc.minimumVotes (jsOrNat tc.voteThreshold 1)

/-- Status recomputation of `vote_tag` after the vote list changed: under
`minimum` threshold semantics with voting enabled, a `pending` tag at or above
the effective minimum becomes `approved` and an `approved` tag below it
reverts to `pending`; all other statuses and threshold types are untouched
(`topN` is deferred to an external aggregation step). -/
def recomputeStatus (tagCreation : Option TagCreationSettings) (status : TagStatus)
    (voteCount : Nat) : TagStatus :=
  match tagCreation with
  | none => status
  | some tc =>
    if tc.enableVoting then
      if effectiveThresholdType tc = "minimum" then
        if status = TagStatus.pending ∧ voteCount ≥ effectiveMinVotes tc then TagStatus.approved
        else if status = TagStatus.approved ∧ voteCount < effectiveMinVotes tc then
          TagStatus.pending
        else status
      else status
    else status

/-- Effect of one `vote_tag` event on the matched tag: toggle the vote, then
recompute the status from the new vote count. -/
def updateTagVote (t : Tag) (tagCreation : Option TagCreationSettings) (v : Vote) : Tag :=
  let votes' := toggleVote t.votes v
  { t with votes := votes', status := recomputeStatus tagCreation t.status votes'.length }

/-- In-place mutation of the first tag matching the payload tag id. -/
def updateFirstTag : List Tag → Option String → (Tag → Tag) → List Tag
  | [], _, _ => []
  | t :: rest, tid, f => if some t.id = tid then f t :: rest else t :: updateFirstTag rest tid f

/-- JS `userId.substring(0, 6)` name synthesis: `"User-" + first 6 chars`. -/
def synthName (s : String) : String := "User-" ++ s.take 6

/-- One entry of the `participants_updated` payload built by `join_activity`:
`{id, name: id === userId ? userName : "User-"+id.substring(0,6), isConnected: true}`.
Returns `none` when the JS expression would throw (`id.substring` on
`undefined`), which aborts the handler before the broadcast. -/
def joinParticipantEntry (uid un : Option String) (id : Option String) :
    Option ParticipantInfo :=
  if id = uid then some { id := id, name := un, isConnected := true }
  else id.map fun s => { id := some s, name := some (synthName s), isConnected := true }

/-- The broadcast of `join_activity`: `io.to(activityId).emit('participants_updated', ...)`
over the current presence list; no event is emitted if building the payload throws. -/
def joinEmits (aid uid un : Option String) (ids : List (Option String)) : List Emit :=
  match ids.mapM (joinParticipantEntry uid un) with
  | some parts => [Emit.participantsUpdated (Target.room aid) aid parts]
  | none => []

/-- The broadcast of `leave_activity`: every remaining presence entry is
reported with a synthesized name and `isConnected: true`; building the payload
throws on an `undefined` presence entry, aborting before the broadcast. -/
def leaveEmits (aid : Option String) (ids : List (Option String)) : List Emit :=
  match ids.mapM (fun id =>
      id.map fun s => ParticipantInfo.mk (some s) (some (synthName s)) true) with
  | some parts => [Emit.participantsUpdated (Target.room aid) aid parts]
  | none => []

/-- Presence-map update of `join_activity`: create the activity entry if
absent, then add the user id. -/
def addToActivity (acts : List (Option String × List (Option String)))
    (aid uid : Option String) : List (Option String × List (Option String)) :=
  match alookup acts aid with
  | some set => aset acts aid (sadd set uid)
  | none => acts ++ [(aid, [uid])]

/-- Whether the connection already claims membership in this activity
(the duplicate-join guard of `join_activity`). -/
def alreadyInActivity (conn : Option Conn) (aid : Option String) : Bool :=
  match conn with
  | some c => aid ∈ c.activityIds
  | none => false

/-- Durable update of `join_activity` (inside `safeDbOperation`): re-activate
the existing participant record, or push a new one with
`name: userName || "User-" + userId.substring(0,6)`.  With `userId`
`undefined` the operation leaves the store unchanged: either the name
synthesis throws (caught by `safeDbOperation`) or the pushed record fails
the schema's required-`id` validation on `save()`. -/
def joinDbUpdate (store : Store) (aid uid un : Option String) (now : Nat) : Store :=
  if store.connected then
    match findActivity store.docs aid with
    | none => store
    | some activity =>
      if activity.participants.any (fun p => some p.id == uid) then
        let activity' := { activity with
          participants := setConnectedTrue activity.participants uid
          updatedAt := now }
        { store with docs := saveActivity store.docs activity' }
      else
        match uid with
        | some u =>
          let name := if jsTruthyS un then un.getD "" else synthName u
          let activity' := { activity with
            participants := activity.participants ++
              [{ id := u, name := name, isConnected := true, hasCompletedTagging := none }]
            updatedAt := now }
          { store with docs := saveActivity store.docs activity' }
        | none => store
  else store

/-- Handler of `io.on('connection')`: reject outright at `MAX_CONNECTIONS`
(before the connection is registered anywhere), else count and register the
connection, warn when at or past the soft limit, and acknowledge. -/
def connectSocket (cfg : ServerConfig) (c : String) (s : ServerState) :
    ServerState × List Emit :=
  if s.connectionCount ≥ cfg.maxConnections then
    (s, [Emit.connectionRejected "capacity_full"
          "Sorry! We\x27re at capacity right now. Please try again in a few minutes."
          s.connectionCount cfg.maxConnections "2-5 minutes"])
  else
    let cnt := s.connectionCount + 1
    let s' := { s with
      connectionCount := cnt
      connections := aset s.connections c { userId := none, activityIds := [] } }
    let warn :=
      if cnt ≥ cfg.softLimit then
        [Emit.capacityWarning "High traffic detected - you may experience slower performance."
          cnt cfg.maxConnections]
      else []
    (s', warn ++ [Emit.connectionAccepted "Connected successfully!" cnt cfg.maxConnections
      (if cnt < cfg.softLimit then "normal" else "high")])

/-- Handler of `join_activity {activityId, userId, userName}` for socket `c`:
skip if this connection already claims the activity; otherwise bind the user
id, record the join, add the user to the presence map, best-effort update the
durable participant record, and broadcast the full presence list to the room.
No field of the payload is validated. -/
def joinActivity (c : String) (aid uid un : Option String) (now : Nat)
    (s : ServerState) : ServerState × List Emit :=
  let conn? := alookup s.connections c
  if alreadyInActivity conn? aid then (s, [])
  else
    let conns' :=
      match conn? with
      | some conn =>
        aset s.connections c { userId := uid, activityIds := sadd conn.activityIds aid }
      | none => s.connections
    let acts' := addToActivity s.activities aid uid
    let s' := { s with
      connections := conns'
      activities := acts'
      store := joinDbUpdate s.store aid uid un now }
    (s', joinEmits aid uid un (listParticipants acts' aid))

/-- Handler of `leave_activity {activityId, userId}` for socket `c`: return
early on a falsy `userId` or `activityId` or an in-flight duplicate operation
key; otherwise drop the activity from the connection record, and if the user
is in the activity's presence set remove it (dropping the entry when it
empties), best-effort flip the durable `isConnected` flag, and broadcast the
remaining presence list.  The operation key is added and then removed in a
`finally` block within the same run-to-completion handler, so it has no net
effect on the state. -/
def leaveActivity (c : String) (aid uid : Option String) (now : Nat)
    (s : ServerState) : ServerState × List Emit :=
  if !jsTruthyS uid || !jsTruthyS aid then (s, [])
  else
    let opKey := "leave_" ++ aid.getD "" ++ "_" ++ uid.getD ""
    if opKey ∈ s.operationsInProgress then (s, [])
    else
      let conns' :=
        match alookup s.connections c with
        | some conn => aset s.connections c { conn with activityIds := sdel conn.activityIds aid }
        | none => s.connections
      match alookup s.activities aid with
      | some set =>
        if uid ∈ set then
          let set' := sdel set uid
          let acts' := if set' = [] then adel s.activities aid else aset s.activities aid set'
          let s' := { s with
            connections := conns'
            activities := acts'
            store := safeUpdateDisconnect s.store aid uid now }
          (s', leaveEmits aid (listParticipants acts' aid))
        else ({ s with connections := conns' }, [])
      | none => ({ s with connections := conns' }, [])

/-- Per-activity cleanup step of the `disconnect` handler: remove the user
from the activity's presence set (dropping the entry when it empties) and
best-effort flip the durable `isConnected` flag. -/
def disconnectActivity (uid : Option String) (now : Nat)
    (acc : List (Option String × List (Option String)) × Store) (aid : Option String) :
    List (Option String × List (Option String)) × Store :=
  let acts' :=
    match alookup acc.1 aid with
    | some set =>
      let set' := sdel set uid
      if set' = [] then adel acc.1 aid else aset acc.1 aid set'
    | none => acc.1
  (acts', safeUpdateDisconnect acc.2 aid uid now)

/-- Handler of `disconnect` for socket `c`: decrement the connection count,
and if the connection record carries a truthy user id, run the per-activity
cleanup for every activity it had joined; finally destroy the connection
record.  Nothing is broadcast. -/
def disconnectSocket (c : String) (now : Nat) (s : ServerState) :
    ServerState × List Emit :=
  let cnt := s.connectionCount - 1
  match alookup s.connections c with
  | some conn =>
    if jsTruthyS conn.userId then
      let r := conn.activityIds.foldl (disconnectActivity conn.userId now) (s.activities, s.store)
      ({ s with
          connectionCount := cnt
          connections := adel s.connections c
          activities := r.1
          store := r.2 }, [])
    else
      ({ s with connectionCount := cnt, connections := adel s.connections c }, [])
  | none => ({ s with connectionCount := cnt, connections := adel s.connections c }, [])

/-- Handler of `add_tag {activityId, tag}`: inside `safeDbOperation`, look up
the activity, silently skip if a tag with the same id exists, else push the
built tag document and save; then — outside the store operation, hence
unconditionally — broadcast `tag_added` with the original payload to the room
excluding the sender. -/
def addTag (data : AddTagData) (now : Nat) (s : ServerState) : ServerState × List Emit :=
  let store' :=
    if s.store.connected then
      match findActivity s.store.docs data.activityId with
      | none => s.store
      | some activity =>
        if tagExists activity.tags data.tag.id then s.store
        else
          let activity' := { activity with
            tags := activity.tags ++ [buildTag data.tag (votingEnabled activity.settings) now]
            updatedAt := now }
          { s.store with docs := saveActivity s.store.docs activity' }
    else s.store
  ({ s with store := store' }, [Emit.tagAdded (Target.roomExceptSender data.activityId) data])

/-- Handler of `vote_tag {activityId, tagId, vote}`: inside `safeDbOperation`,
look up the activity and tag, toggle the vote, recompute the status, stamp
`updatedAt` and save; then — unconditionally — broadcast `tag_voted` with
the original payload to the room excluding the sender. -/
def voteTag (data : VoteTagData) (now : Nat) (s : ServerState) : ServerState × List Emit :=
  let store' :=
    if s.store.connected then
      match findActivity s.store.docs data.activityId with
      | none => s.store
      | some activity =>
        match findTag activity.tags data.tagId with
        | none => s.store
        | some _ =>
          let newVote : Vote :=
            { userId := data.vote.userId, userName := data.vote.userName
              timestamp := data.vote.timestamp }
          let activity' := { activity with
            tags := updateFirstTag activity.tags data.tagId
              (fun t => updateTagVote t activity.settings.tagCreation newVote)
            updatedAt := now }
          { s.store with docs := saveActivity s.store.docs activity' }
    else s.store
  ({ s with store := store' }, [Emit.tagVoted (Target.roomExceptSender data.activityId) data])

/-- Handler of `delete_activity {activityId}`: best-effort `deleteOne` inside
`safeDbOperation` (fallback `false`), then always broadcast `activity_deleted`
globally, regardless of the store outcome. -/
def deleteActivity (aid : Option String) (s : ServerState) : ServerState × List Emit :=
  let store' :=
    if s.store.connected then { s.store with docs := (deleteOneById s.store.docs aid).1 }
    else s.store
  ({ s with store := store' }, [Emit.activityDeleted Target.allClients aid])

/-- Presence/registry events for the lifecycle state machine: a fresh
transport connection, a `join_activity`/`leave_activity` from a connected
socket, and a transport `disconnect`.  `owner c` is the user id socket `c`
authenticates as in its join/leave payloads. -/
inductive Ev where
  | connect (c : String)
  | join (c : String) (a : String) (un : Option String)
  | leave (c : String) (a : String)
  | disc (c : String)
deriving DecidableEq, Repr

/-- One lifecycle event applied to the server state. -/
def stepEv (cfg : ServerConfig) (owner : String → String) (now : Nat)
    (s : ServerState) : Ev → ServerState
  | Ev.connect c => (connectSocket cfg c s).1
  | Ev.join c a un => (joinActivity c (some a) (some (owner c)) un now s).1
  | Ev.leave c a => (leaveActivity c (some a) (some (owner c)) now s).1
  | Ev.disc c => (disconnectSocket c now s).1

/-- Socket.io delivery constraints on a single event: `connect` carries a
fresh socket id, and `join_activity`/`leave_activity` handlers only exist on
sockets that were admitted and not yet disconnected (they are registered
inside the `connection` callback and die with the socket). -/
def validEvB (s : ServerState) : Ev → Bool
  | Ev.connect c => alookup s.connections c = none
  | Ev.join c _ _ => (alookup s.connections c).isSome
  | Ev.leave c _ => (alookup s.connections c).isSome
  | Ev.disc _ => true

/-- A deliverable event sequence from a given state. -/
def validTraceB (cfg : ServerConfig) (owner : String → String) (now : Nat) :
    ServerState → List Ev → Bool
  | _, [] => true
  | s, e :: rest => validEvB s e && validTraceB cfg owner now (stepEv cfg owner now s e) rest

/-- Run a sequence of lifecycle events. -/
def runTrace (cfg : ServerConfig) (owner : String → String) (now : Nat) :
    ServerState → List Ev → ServerState
  | s, [] => s
  | s, e :: rest => runTrace cfg owner now (stepEv cfg owner now s e) rest

/-- Boot state of the process: zero connections, empty maps, and whatever the
durable store holds. -/
def bootState (st : Store) : ServerState :=
  { connectionCount := 0, connections := [], activities := [], operationsInProgress := []
    store := st }

/-- Membership of a user id in the in-memory presence set of an activity
(the `activities` map entry). -/
def inPresence (s : ServerState) (a u : Option String) : Prop :=
  ∃ set, alookup s.activities a = some set ∧ u ∈ set

/-- The user id is claimed by at least one currently-registered connection
that has joined the activity. -/
def claimedByRegistered (s : ServerState) (a u : Option String) : Prop :=
  ∃ c conn, alookup s.connections c = some conn ∧ conn.userId = u ∧ a ∈ conn.activityIds

/-- Well-formedness of the registry under a per-socket user assignment:
every registered connection either has not yet joined anything or carries
its owner's user id. -/
def connsOwned (owner : String → String) (s : ServerState) : Prop :=
  ∀ c conn, alookup s.connections c = some conn →
    (conn.userId = none ∧ conn.activityIds = []) ∨ conn.userId = some (owner c)

/-- Frame relation of the targeted leave/disconnect store write on one
participant entry: unchanged, or (for the disconnecting user's entry) only
the `isConnected` field cleared. -/
def participantFrame (uid : Option String) (p p' : ParticipantDoc) : Prop :=
  p' = p ∨ (some p.id = uid ∧ p' = { p with isConnected := false })

/-- Frame relation of the targeted leave/disconnect store write on one
activity document: every field except `participants` and `updatedAt` is
unchanged, `updatedAt` is at most re-stamped, and each participant entry obeys
`participantFrame`. -/
def docFrame (uid : Option String) (now : Nat) (d d' : ActivityDoc) : Prop :=
  d'.id = d.id ∧ d'.settings = d.settings ∧ d'.createdAt = d.createdAt ∧
  d'.status = d.status ∧ d'.phase = d.phase ∧ d'.tags = d.tags ∧
  d'.mappings = d.mappings ∧ d'.rankings = d.rankings ∧
  (d'.updatedAt = d.updatedAt ∨ d'.updatedAt = now) ∧
  List.Forall₂ (participantFrame uid) d.participants d'.participants

/-- User id recorded for socket `c`, `none` when the socket is unregistered. -/
def connUserId (s : ServerState) (c : String) : Option String :=
  match alookup s.connections c with
  | some conn => conn.userId
  | none => none

/-- Bool test matching `Emit.tagAdded`. -/
def isTagAdded : Emit → Bool
  | Emit.tagAdded _ _ => true
  | _ => false

/-- Default connection-limit configuration (`MAX_CONNECTIONS = 25`,
`SOFT_LIMIT = floor(25 * 0.8) = 20`). -/
def cfgDefault : ServerConfig := { maxConnections := 25, softLimit := 20 }

/-- A store with no reachable database (`isMongoConnected = false`). -/
def emptyStore : Store := { connected := false, docs := [] }

/-- Server state at the hard connection limit. -/
def fullState : ServerState :=
  { connectionCount := 25, connections := [], activities := [], operationsInProgress := []
    store := emptyStore }

/-- Voting configuration with `minimum` threshold semantics and `minimumVotes = 1`. -/
def tcMinOne : TagCreationSettings :=
  { enableVoting := true, voteThreshold := none, thresholdType := none
    minimumVotes := some 1, topNCount := none }

/-- A pre-existing vote by participant `w`. -/
def voteByW : Vote := { userId := some "w", userName := some "W", timestamp := 0 }

/-- A `vote_tag` payload from participant `v` for tag `t` of activity `a`. -/
def voteDataV : VoteTagData :=
  { activityId := some "a", tagId := some "t"
    vote := { userId := some "v", userName := some "V", timestamp := 5 } }

/-- Tag `t` with the given votes and status. -/
def sampleTag (vs : List Vote) (st : TagStatus) : Tag :=
  { id := "t", text := "x", creatorId := "w", creatorName := none, votes := vs
    comments := [], commentCount := 0, hasNewComments := false, status := st, createdAt := 0 }

/-- A `pending` tag whose vote count already meets the threshold of `tcMinOne`. -/
def tagPendingAtThreshold : Tag := sampleTag [voteByW] TagStatus.pending

/-- A `rejected` tag with no votes. -/
def tagRejected : Tag := sampleTag [] TagStatus.rejected

/-- A fresh `pending` tag with no votes. -/
def tagFresh : Tag := sampleTag [] TagStatus.pending

/-- Activity document `a` configured with `tcMinOne` and holding one tag. -/
def docWith (t : Tag) : ActivityDoc :=
  { id := "a", settings := { tagCreation := some tcMinOne }, createdAt := 0, updatedAt := 0
    status := "active", participants := [], phase := "tagging", tags := [t]
    mappings := [], rankings := [] }

/-- Boot state over a reachable store holding exactly `docWith t`. -/
def stateWith (t : Tag) : ServerState :=
  bootState { connected := true, docs := [docWith t] }

/-- The matched tag after processing `voteDataV` twice from the given initial tag. -/
def doubleVoteResult (t : Tag) : Option Tag :=
  (findActivity (voteTag voteDataV 2 (voteTag voteDataV 1 (stateWith t)).1).1.store.docs
    (some "a")).bind fun a => findTag a.tags (some "t")

/-- The matched tag after processing `voteDataV` once from the given initial tag. -/
def afterOneVote (t : Tag) : Option Tag :=
  (findActivity (voteTag voteDataV 1 (stateWith t)).1.store.docs
    (some "a")).bind fun a => findTag a.tags (some "t")

/-- An `add_tag` payload for a new tag `t2` in activity `a`. -/
def addTagPayload : AddTagData :=
  { activityId := some "a"
    tag := { id := "t2", text := "y", creatorId := "v", creatorName := none
             votes := none, comments := none } }

/-- All events emitted across two identical `add_tag` submissions. -/
def addTwiceEmits : List Emit :=
  (addTag addTagPayload 1 (stateWith tagRejected)).2 ++
  (addTag addTagPayload 2 (addTag addTagPayload 1 (stateWith tagRejected)).1).2

/-- State after socket `c1` connects. -/
def oneConnState : ServerState := (connectSocket cfgDefault "c1" (bootState emptyStore)).1

/-- State after socket `c1` connects and joins activity `a` as user `u`. -/
def joinedState : ServerState :=
  (joinActivity "c1" (some "a") (some "u") (some "U") 0 oneConnState).1

/-- Result of a `join_activity` whose payload carries no `userId`. -/
def malformedJoin : ServerState × List Emit :=
  joinActivity "c1" (some "a") none none 0 oneConnState

/-- State reached when user `u` opens two connections (`c1`, `c2`), joins
activity `a` on both, and then leaves on `c2` only. -/
def twoTabsState : ServerState :=
  (leaveActivity "c2" (some "a") (some "u") 0
    (joinActivity "c2" (some "a") (some "u") (some "U") 0
      (joinActivity "c1" (some "a") (some "u") (some "U") 0
        (connectSocket cfgDefault "c2" oneConnState).1).1).1).1

/-- Socket-to-user assignment where each socket authenticates as a distinct
user id derived from its own socket id. -/
def pushOwner (c : String) : String := c.push 'x'

/-- A deliverable demonstration trace: one socket connects and joins one activity. -/
def demoTrace : List Ev := [Ev.connect "c1", Ev.join "c1" "a" none]

/-- Membership of a user id in the presence set of an activity, at the level
of the raw `activities` map. -/
def presentIn (acts : List (Option String × List (Option String)))
    (a u : Option String) : Prop :=
  ∃ set, alookup acts a = some set ∧ u ∈ set

/-- A user id claimed for an activity by some connection of the raw
`connections` map. -/
def claimedIn (conns : List (String × Conn)) (a u : Option String) : Prop :=
  ∃ c conn, alookup conns c = some conn ∧ conn.userId = u ∧ a ∈ conn.activityIds

/-- Same as `claimedIn`, restricted to connections other than `c₀`. -/
def claimedInExcept (conns : List (String × Conn)) (c₀ : String)
    (a u : Option String) : Prop :=
  ∃ c conn, c ≠ c₀ ∧ alookup conns c = some conn ∧ conn.userId = u ∧ a ∈ conn.activityIds

/-- Invariant carried through the lifecycle state machine: the registry is
owner-consistent and the presence map agrees pointwise with the
registry-claimed sets. -/
def presenceInv (owner : String → String) (s : ServerState) : Prop :=
  connsOwned owner s ∧ ∀ a u, presentIn s.activities a u ↔ claimedIn s.connections a u

theorem alookup_aset {α β : Type} [DecidableEq α] (l : List (α × β)) (k : α) (v : β)
    (k' : α) : alookup (aset l k v) k' = if k = k' then some v else alookup l k' := by
  induction l with
  | nil => simp [aset, alookup]
  | cons p rest ih =>
    obtain ⟨k₀, v₀⟩ := p
    by_cases h : k₀ = k
    · subst h
      by_cases h' : k₀ = k'
      · subst h'; simp [aset, alookup]
      · simp [aset, alookup, h']
    · by_cases h' : k₀ = k'
      · subst h'
        have hk : k ≠ k₀ := fun he => h he.symm
        simp [aset, alookup, h, hk]
      · simp [aset, alookup, h, h', ih]

theorem alookup_adel {α β : Type} [DecidableEq α] (l : List (α × β)) (k k' : α) :
    alookup (adel l k) k' = if k = k' then none else alookup l k' := by
  induction l with
  | nil => simp [adel, alookup]
  | cons p rest ih =>
    obtain ⟨k₀, v₀⟩ := p
    by_cases h : k₀ = k
    · subst h
      by_cases h' : k₀ = k'
      · subst h'; simp [adel, alookup, ih]
      · simp [adel, alookup, h', ih]
    · by_cases h' : k₀ = k'
      · subst h'
        have hk : k ≠ k₀ := fun he => h he.symm
        simp [adel, alookup, h, hk]
      · simp [adel, alookup, h, h', ih]

theorem alookup_append_of_none {α β : Type} [DecidableEq α] (l₁ l₂ : List (α × β)) (k : α)
    (h : alookup l₁ k = none) : alookup (l₁ ++ l₂) k = alookup l₂ k := by
  induction l₁ with
  | nil => simp
  | cons p rest ih =>
    obtain ⟨k₀, v₀⟩ := p
    by_cases h' : k₀ = k
    · simp [alookup, h'] at h
    · simp [alookup, h'] at h ⊢
      exact ih h

theorem alookup_append_of_some {α β : Type} [DecidableEq α] (l₁ l₂ : List (α × β)) (k : α)
    (v : β) (h : alookup l₁ k = some v) : alookup (l₁ ++ l₂) k = some v := by
  induction l₁ with
  | nil => simp [alookup] at h
  | cons p rest ih =>
    obtain ⟨k₀, v₀⟩ := p
    by_cases h' : k₀ = k
    · simp [alookup, h'] at h ⊢; exact h
    · simp [alookup, h'] at h ⊢; exact ih h

theorem adel_of_alookup_none {α β : Type} [DecidableEq α] (l : List (α × β)) (k : α)
    (h : alookup l k = none) : adel l k = l := by
  induction l with
  | nil => rfl
  | cons p rest ih =>
    obtain ⟨k₀, v₀⟩ := p
    by_cases h' : k₀ = k
    · simp [alookup, h'] at h
    · simp [alookup, h'] at h
      simp [adel, h', ih h]

theorem mem_sadd {α : Type} [DecidableEq α] (l : List α) (a b : α) :
    a ∈ sadd l b ↔ a ∈ l ∨ a = b := by
  unfold sadd
  by_cases h : b ∈ l
  · simp [h]
    intro he; subst he; exact h
  · simp [h]

theorem mem_sdel {α : Type} [DecidableEq α] (l : List α) (a b : α) :
    a ∈ sdel l b ↔ a ∈ l ∧ a ≠ b := by
  induction l with
  | nil => simp [sdel]
  | cons x rest ih =>
    by_cases h : x = b
    · simp only [sdel, if_pos h, ih]
      subst h
      constructor
      · rintro ⟨hm, hne⟩
        exact ⟨List.mem_cons_of_mem _ hm, hne⟩
      · rintro ⟨hm, hne⟩
        rcases List.mem_cons.mp hm with he | hm'
        · exact absurd he hne
        · exact ⟨hm', hne⟩
    · simp only [sdel, if_neg h, List.mem_cons, ih]
      constructor
      · rintro (he | ⟨hm, hne⟩)
        · exact ⟨Or.inl he, fun hb => h (he ▸ hb)⟩
        · exact ⟨Or.inr hm, hne⟩
      · rintro ⟨he | hm, hne⟩
        · exact Or.inl he
        · exact Or.inr ⟨hm, hne⟩

/-- C5: every connect attempt arriving while `connectionCount ≥ MAX_CONNECTIONS`
is rejected with a structured message carrying the reason, the current and
maximum connection counts, and a suggested retry window, and the whole server
state — in particular the connections registry and `connectionCount` — is
unchanged by the rejection. -/
theorem connect_rejected_at_capacity (cfg : ServerConfig) (c : String) (s : ServerState)
    (h : s.connectionCount ≥ cfg.maxConnections) :
    connectSocket cfg c s =
      (s, [Emit.connectionRejected "capacity_full"
        "Sorry! We\x27re at capacity right now. Please try again in a few minutes."
        s.connectionCount cfg.maxConnections "2-5 minutes"]) := by
  simp [connectSocket, h]

/-- Witness for C5: a concrete connect attempt at the hard limit. -/
theorem connect_rejected_at_capacity_witness :
    fullState.connectionCount ≥ cfgDefault.maxConnections ∧
    connectSocket cfgDefault "c9" fullState =
      (fullState, [Emit.connectionRejected "capacity_full"
        "Sorry! We\x27re at capacity right now. Please try again in a few minutes."
        fullState.connectionCount cfgDefault.maxConnections "2-5 minutes"]) :=
  ⟨by decide, connect_rejected_at_capacity cfgDefault "c9" fullState (by decide)⟩

/-- C6: the `delete_activity` handler emits the global `activity_deleted`
broadcast unconditionally — for every server state, hence also when the
activity is absent from the store, when the delete reports zero deletions,
and when the store is unreachable. -/
theorem delete_activity_always_broadcasts (aid : Option String) (s : ServerState) :
    (deleteActivity aid s).2 = [Emit.activityDeleted Target.allClients aid] := rfl

/-- C9: a `join_activity` whose connection already records membership in the
target activity is a complete no-op: the state (connections registry,
presence map, durable store) is returned unchanged and nothing is emitted. -/
theorem join_already_member_noop (c : String) (aid uid un : Option String) (now : Nat)
    (s : ServerState) (conn : Conn)
    (hc : alookup s.connections c = some conn) (hmem : aid ∈ conn.activityIds) :
    joinActivity c aid uid un now s = (s, []) := by
  unfold joinActivity
  rw [hc]
  simp [alreadyInActivity, hmem]

/-- Witness for C9: a repeated join on a concrete connected-and-joined state. -/
theorem join_already_member_noop_witness :
    alookup joinedState.connections "c1" = some { userId := some "u", activityIds := [some "a"] } ∧
    joinActivity "c1" (some "a") (some "u") (some "U") 1 joinedState = (joinedState, []) :=
  ⟨by decide, join_already_member_noop "c1" (some "a") (some "u") (some "U") 1 joinedState
    { userId := some "u", activityIds := [some "a"] } (by decide) (by decide)⟩

/-- C7 (amended): `leave_activity` with a missing or empty `userId` or
`activityId` returns without mutating any state and without broadcasting. -/
theorem leave_missing_field_noop (c : String) (aid uid : Option String) (now : Nat)
    (s : ServerState) (h : jsTruthyS uid = false ∨ jsTruthyS aid = false) :
    leaveActivity c aid uid now s = (s, []) := by
  unfold leaveActivity
  rcases h with h | h <;> simp [h]

/-- Witness for C7: a concrete `leave_activity` with no `userId`. -/
theorem leave_missing_field_noop_witness :
    jsTruthyS none = false ∧
    leaveActivity "c1" (some "a") none 0 joinedState = (joinedState, []) :=
  ⟨rfl, leave_missing_field_noop "c1" (some "a") none 0 joinedState (Or.inl rfl)⟩

/-- Counterexample for C7 as stated: a `join_activity` with a missing `userId`
is not guarded — it mutates the presence map (and the connection record) and
still broadcasts `participants_updated`. -/
theorem join_missing_userId_mutates :
    ¬ (malformedJoin.1 = oneConnState ∧ malformedJoin.2 = []) := by decide

/-- C10: a `vote_tag` whose activity id matches no stored document, or whose
tag id matches no tag of the matched document, or that is processed while the
store is unreachable, leaves the whole state (in particular the durable
store) unchanged, yet still broadcasts `tag_voted` with the original payload
to the activity room excluding the originating connection. -/
theorem vote_tag_store_noop_still_broadcasts (data : VoteTagData) (now : Nat)
    (s : ServerState)
    (h : s.store.connected = false ∨ findActivity s.store.docs data.activityId = none ∨
      ∃ a, findActivity s.store.docs data.activityId = some a ∧
        findTag a.tags data.tagId = none) :
    voteTag data now s = (s, [Emit.tagVoted (Target.roomExceptSender data.activityId) data]) := by
  unfold voteTag
  rcases h with h | h | ⟨a, ha, ht⟩
  · simp [h]
  · cases hc : s.store.connected <;> simp [h, hc]
  · cases hc : s.store.connected <;> simp [ha, ht, hc]

/-- Witness for C10: a concrete `vote_tag` processed while the store is
unreachable. -/
theorem vote_tag_store_noop_still_broadcasts_witness :
    (bootState emptyStore).store.connected = false ∧
    voteTag voteDataV 0 (bootState emptyStore) =
      (bootState emptyStore,
       [Emit.tagVoted (Target.roomExceptSender voteDataV.activityId) voteDataV]) :=
  ⟨rfl, vote_tag_store_noop_still_broadcasts voteDataV 0 (bootState emptyStore) (Or.inl rfl)⟩

theorem findActivity_id (docs : List ActivityDoc) (aid : Option String) (a : ActivityDoc)
    (h : findActivity docs aid = some a) : some a.id = aid := by
  induction docs with
  | nil => simp [findActivity] at h
  | cons d rest ih =>
    unfold findActivity at h
    by_cases hd : some d.id = aid
    · rw [if_pos hd] at h
      injection h with h
      subst h; exact hd
    · rw [if_neg hd] at h
      exact ih h

theorem findActivity_saveActivity (docs : List ActivityDoc) (aid : Option String)
    (a a' : ActivityDoc) (ha : findActivity docs aid = some a) (hid : a'.id = a.id) :
    findActivity (saveActivity docs a') aid = some a' := by
  induction docs with
  | nil => simp [findActivity] at ha
  | cons d rest ih =>
    unfold findActivity at ha
    by_cases hd : some d.id = aid
    · rw [if_pos hd] at ha
      injection ha with ha
      subst ha
      unfold saveActivity
      rw [if_pos (by rw [hid])]
      unfold findActivity
      rw [if_pos (by rw [hid]; exact hd)]
    · rw [if_neg hd] at ha
      have haid : some a.id = aid := findActivity_id rest aid a ha
      have hne : d.id ≠ a'.id := by
        intro he
        exact hd (by rw [he, hid]; exact haid)
      unfold saveActivity
      rw [if_neg hne]
      unfold findActivity
      rw [if_neg hd]
      exact ih ha

theorem tagExists_append_self (tags : List Tag) (t : Tag) :
    tagExists (tags ++ [t]) t.id = true := by
  induction tags with
  | nil => simp [tagExists]
  | cons t₀ rest ih =>
    rw [List.cons_append]
    simp only [tagExists]
    by_cases h : t₀.id = t.id
    · rw [if_pos h]
    · rw [if_neg h]
      exact ih

theorem countTag_eq_zero (tags : List Tag) (tid : String)
    (h : tagExists tags tid = false) : countTag tags tid = 0 := by
  induction tags with
  | nil => rfl
  | cons t₀ rest ih =>
    simp only [tagExists] at h
    by_cases h₀ : t₀.id = tid
    · rw [if_pos h₀] at h; cases h
    · rw [if_neg h₀] at h
      simp only [countTag]
      rw [if_neg h₀, ih h]

theorem countTag_append (tags₁ tags₂ : List Tag) (tid : String) :
    countTag (tags₁ ++ tags₂) tid = countTag tags₁ tid + countTag tags₂ tid := by
  induction tags₁ with
  | nil => simp [countTag]
  | cons t₀ rest ih =>
    rw [List.cons_append]
    simp only [countTag]
    rw [ih]
    omega

theorem addTag_preserves_connected (data : AddTagData) (n : Nat) (s : ServerState) :
    (addTag data n s).1.store.connected = s.store.connected := by
  unfold addTag
  dsimp only
  split
  · split
    · rfl
    · split <;> rfl
  · rfl

/-- C4 (amended): two identical `add_tag` submissions leave exactly one tag
with the submitted identifier in the durable list (the duplicate causes no
store mutation), but — because the broadcast sits outside the store
operation — a `tag_added` broadcast is emitted for each of the two events,
not at most one. -/
theorem add_tag_twice (data : AddTagData) (n₁ n₂ : Nat) (s : ServerState)
    (activity : ActivityDoc)
    (hconn : s.store.connected = true)
    (hact : findActivity s.store.docs data.activityId = some activity)
    (hnew : tagExists activity.tags data.tag.id = false) :
    (∃ a₂, findActivity (addTag data n₂ (addTag data n₁ s).1).1.store.docs data.activityId
        = some a₂ ∧ countTag a₂.tags data.tag.id = 1) ∧
    (addTag data n₁ s).2 = [Emit.tagAdded (Target.roomExceptSender data.activityId) data] ∧
    (addTag data n₂ (addTag data n₁ s).1).2 =
      [Emit.tagAdded (Target.roomExceptSender data.activityId) data] := by
  refine ⟨?_, rfl, rfl⟩
  set newTag := buildTag data.tag (votingEnabled activity.settings) n₁ with hnt
  set a₁ : ActivityDoc := { activity with tags := activity.tags ++ [newTag], updatedAt := n₁ }
    with ha₁
  set s₁ := (addTag data n₁ s).1 with hs₁
  have hdocs₁ : s₁.store.docs = saveActivity s.store.docs a₁ := by
    rw [hs₁]
    simp [addTag, hconn, hact, hnew]
  have hconn₁ : s₁.store.connected = true := by
    rw [hs₁, addTag_preserves_connected]; exact hconn
  have hfind₁ : findActivity s₁.store.docs data.activityId = some a₁ := by
    rw [hdocs₁]
    exact findActivity_saveActivity s.store.docs data.activityId activity a₁ hact rfl
  have hex : tagExists a₁.tags data.tag.id = true := by
    rw [ha₁]
    simpa [hnt] using tagExists_append_self activity.tags newTag
  have hdocs₂ : (addTag data n₂ s₁).1.store.docs = s₁.store.docs := by
    simp [addTag, hconn₁, hfind₁, hex]
  rw [hdocs₂]
  refine ⟨a₁, hfind₁, ?_⟩
  rw [ha₁]
  simp only
  rw [countTag_append, countTag_eq_zero activity.tags data.tag.id hnew]
  simp [countTag, hnt, buildTag]

/-- Witness for C4: concrete double submission of tag `t2`. -/
theorem add_tag_twice_witness :
    (stateWith tagRejected).store.connected = true ∧
    (∃ a₂, findActivity
        (addTag addTagPayload 2 (addTag addTagPayload 1 (stateWith tagRejected)).1).1.store.docs
        addTagPayload.activityId = some a₂ ∧ countTag a₂.tags addTagPayload.tag.id = 1) :=
  ⟨rfl, (add_tag_twice addTagPayload 1 2 (stateWith tagRejected) (docWith tagRejected)
    rfl rfl (by decide)).1⟩

/-- Counterexample for C4 as stated: across the two identical `add_tag`
events, `tag_added` is broadcast twice, not at most once — the broadcast is
unconditional in the production handler. -/
theorem add_tag_broadcast_cex : ¬ (addTwiceEmits.countP isTagAdded ≤ 1) := by decide

theorem findTag_id (tags : List Tag) (tid : Option String) (t : Tag)
    (h : findTag tags tid = some t) : some t.id = tid := by
  induction tags with
  | nil => simp [findTag] at h
  | cons t₀ rest ih =>
    unfold findTag at h
    by_cases h₀ : some t₀.id = tid
    · rw [if_pos h₀] at h
      injection h with h
      subst h; exact h₀
    · rw [if_neg h₀] at h
      exact ih h

theorem findTag_updateFirstTag (tags : List Tag) (tid : Option String) (f : Tag → Tag)
    (t : Tag) (ht : findTag tags tid = some t) (hid : (f t).id = t.id) :
    findTag (updateFirstTag tags tid f) tid = some (f t) := by
  induction tags with
  | nil => simp [findTag] at ht
  | cons t₀ rest ih =>
    unfold findTag at ht
    by_cases h₀ : some t₀.id = tid
    · rw [if_pos h₀] at ht
      injection ht with ht
      subst ht
      unfold updateFirstTag
      rw [if_pos h₀]
      unfold findTag
      rw [if_pos (by rw [hid]; exact h₀)]
    · rw [if_neg h₀] at ht
      unfold updateFirstTag
      rw [if_neg h₀]
      unfold findTag
      rw [if_neg h₀]
      exact ih ht

theorem hasVoteBy_of_not_mem (votes : List Vote) (u : Option String)
    (h : ∀ w ∈ votes, w.userId ≠ u) : hasVoteBy votes u = false := by
  induction votes with
  | nil => rfl
  | cons w rest ih =>
    unfold hasVoteBy
    rw [if_neg (h w (List.mem_cons_self w rest))]
    exact ih fun w' hw' => h w' (List.mem_cons_of_mem w hw')

theorem hasVoteBy_append_self (votes : List Vote) (v : Vote) :
    hasVoteBy (votes ++ [v]) v.userId = true := by
  induction votes with
  | nil => simp [hasVoteBy]
  | cons w rest ih =>
    rw [List.cons_append]
    unfold hasVoteBy
    by_cases h : w.userId = v.userId
    · rw [if_pos h]
    · rw [if_neg h]
      exact ih

theorem removeFirstVote_append (votes : List Vote) (v : Vote)
    (h : ∀ w ∈ votes, w.userId ≠ v.userId) :
    removeFirstVote (votes ++ [v]) v.userId = votes := by
  induction votes with
  | nil => simp [removeFirstVote]
  | cons w rest ih =>
    rw [List.cons_append]
    unfold removeFirstVote
    rw [if_neg (h w (List.mem_cons_self w rest))]
    rw [ih fun w' hw' => h w' (List.mem_cons_of_mem w hw')]

theorem recompute_roundtrip (tagCreation : Option TagCreationSettings) (st : TagStatus)
    (n : Nat) (h : recomputeStatus tagCreation st n = st) :
    recomputeStatus tagCreation (recomputeStatus tagCreation st (n + 1)) n = st := by
  cases tagCreation with
  | none => simp [recomputeStatus]
  | some tc =>
    by_cases hen : tc.enableVoting
    · by_cases hty : effectiveThresholdType tc = "minimum"
      · cases st with
        | pending =>
          have hlt : n < effectiveMinVotes tc := by
            by_contra hge
            push_neg at hge
            simp [recomputeStatus, hen, hty, hge] at h
          by_cases hge1 : effectiveMinVotes tc ≤ n + 1
          · simp [recomputeStatus, hen, hty, hge1, hlt]
          · have hle : ¬ effectiveMinVotes tc ≤ n := fun hc => hge1 (Nat.le_succ_of_le hc)
            simp [recomputeStatus, hen, hty, hge1, hle]
        | approved =>
          have hge : effectiveMinVotes tc ≤ n := by
            by_contra hlt
            push_neg at hlt
            simp [recomputeStatus, hen, hty, hlt] at h
          have hge1 : effectiveMinVotes tc ≤ n + 1 := Nat.le_succ_of_le hge
          simp [recomputeStatus, hen, hty, Nat.not_lt.mpr hge, Nat.not_lt.mpr hge1, hge, hge1]
        | rejected => simp [recomputeStatus, hen, hty]
      · simp [recomputeStatus, hen, hty]
    · simp [recomputeStatus, hen]

theorem recompute_approved_iff (tc : TagCreationSettings) (st : TagStatus) (k : Nat)
    (hen : tc.enableVoting = true) (hty : effectiveThresholdType tc = "minimum")
    (hnr : st ≠ TagStatus.rejected) :
    recomputeStatus (some tc) st k = TagStatus.approved ↔ effectiveMinVotes tc ≤ k := by
  cases st with
  | pending =>
    by_cases hge : effectiveMinVotes tc ≤ k
    · simp [recomputeStatus, hen, hty, hge]
    · simp [recomputeStatus, hen, hty, hge, Nat.not_le.mp hge]
  | approved =>
    by_cases hge : effectiveMinVotes tc ≤ k
    · simp [recomputeStatus, hen, hty, hge, Nat.not_lt.mpr hge]
    · simp [recomputeStatus, hen, hty, Nat.not_le.mp hge, hge]
  | rejected => exact absurd rfl hnr

theorem voteTag_preserves_connected (data : VoteTagData) (n : Nat) (s : ServerState) :
    (voteTag data n s).1.store.connected = s.store.connected := by
  unfold voteTag
  dsimp only
  split
  · split
    · rfl
    · split <;> rfl
  · rfl

theorem updateTagVote_votes (t : Tag) (tagCreation : Option TagCreationSettings) (v : Vote) :
    (updateTagVote t tagCreation v).votes = toggleVote t.votes v := rfl

theorem updateTagVote_status (t : Tag) (tagCreation : Option TagCreationSettings) (v : Vote) :
    (updateTagVote t tagCreation v).status =
      recomputeStatus tagCreation t.status (toggleVote t.votes v).length := rfl

theorem voteTag_docs (data : VoteTagData) (n : Nat) (s : ServerState)
    (activity : ActivityDoc) (t : Tag)
    (hconn : s.store.connected = true)
    (hact : findActivity s.store.docs data.activityId = some activity)
    (htag : findTag activity.tags data.tagId = some t) :
    (voteTag data n s).1.store.docs = saveActivity s.store.docs
      { activity with
        tags := updateFirstTag activity.tags data.tagId
          (fun t' => updateTagVote t' activity.settings.tagCreation data.vote)
        updatedAt := n } := by
  simp [voteTag, hconn, hact, htag]

/-- C2 (amended): processing the same `vote_tag` event twice in succession
restores the tag's pre-vote vote list and status, provided the participant
had not already voted and the tag's pre-vote status is a fixed point of the
status recomputation at its current vote count (for `minimum` semantics:
`pending` below the threshold, `approved` at or above it, or `rejected`).
Without that consistency condition the status is not restored. -/
theorem vote_tag_double_restores (data : VoteTagData) (n₁ n₂ : Nat) (s : ServerState)
    (activity : ActivityDoc) (t : Tag)
    (hconn : s.store.connected = true)
    (hact : findActivity s.store.docs data.activityId = some activity)
    (htag : findTag activity.tags data.tagId = some t)
    (hnov : ∀ w ∈ t.votes, w.userId ≠ data.vote.userId)
    (hfix : recomputeStatus activity.settings.tagCreation t.status t.votes.length = t.status) :
    ∃ a₂ t₂,
      findActivity (voteTag data n₂ (voteTag data n₁ s).1).1.store.docs data.activityId
        = some a₂ ∧
      findTag a₂.tags data.tagId = some t₂ ∧
      t₂.votes = t.votes ∧ t₂.status = t.status := by
  set tc := activity.settings.tagCreation with htc
  set t₁ := updateTagVote t tc data.vote with ht₁
  set a₁ : ActivityDoc := { activity with
    tags := updateFirstTag activity.tags data.tagId (fun t' => updateTagVote t' tc data.vote)
    updatedAt := n₁ } with ha₁
  set s₁ := (voteTag data n₁ s).1 with hs₁
  have hdocs₁ : s₁.store.docs = saveActivity s.store.docs a₁ := by
    rw [hs₁]
    exact voteTag_docs data n₁ s activity t hconn hact htag
  have hconn₁ : s₁.store.connected = true := by
    rw [hs₁, voteTag_preserves_connected]; exact hconn
  have hfind₁ : findActivity s₁.store.docs data.activityId = some a₁ := by
    rw [hdocs₁]
    exact findActivity_saveActivity s.store.docs data.activityId activity a₁ hact rfl
  have htag₁ : findTag a₁.tags data.tagId = some t₁ :=
    findTag_updateFirstTag activity.tags data.tagId _ t htag rfl
  set t₂ := updateTagVote t₁ tc data.vote with ht₂
  set a₂ : ActivityDoc := { a₁ with
    tags := updateFirstTag a₁.tags data.tagId (fun t' => updateTagVote t' tc data.vote)
    updatedAt := n₂ } with ha₂
  have hdocs₂ : (voteTag data n₂ s₁).1.store.docs = saveActivity s₁.store.docs a₂ :=
    voteTag_docs data n₂ s₁ a₁ t₁ hconn₁ hfind₁ htag₁
  have hfind₂ : findActivity (voteTag data n₂ s₁).1.store.docs data.activityId = some a₂ := by
    rw [hdocs₂]
    exact findActivity_saveActivity s₁.store.docs data.activityId a₁ a₂ hfind₁ rfl
  have htag₂ : findTag a₂.tags data.tagId = some t₂ :=
    findTag_updateFirstTag a₁.tags data.tagId _ t₁ htag₁ rfl
  have htog₁ : toggleVote t.votes data.vote = t.votes ++ [data.vote] := by
    unfold toggleVote
    rw [hasVoteBy_of_not_mem t.votes data.vote.userId hnov]
    simp
  have hv₁ : t₁.votes = t.votes ++ [data.vote] := by
    rw [ht₁, updateTagVote_votes, htog₁]
  have hst₁ : t₁.status = recomputeStatus tc t.status (t.votes.length + 1) := by
    rw [ht₁, updateTagVote_status, htog₁]
    simp
  have htog₂ : toggleVote t₁.votes data.vote = t.votes := by
    rw [hv₁]
    unfold toggleVote
    rw [hasVoteBy_append_self]
    simp only [if_true]
    exact removeFirstVote_append t.votes data.vote hnov
  have hv₂ : t₂.votes = t.votes := by
    rw [ht₂, updateTagVote_votes, htog₂]
  have hst₂ : t₂.status = t.status := by
    rw [ht₂, updateTagVote_status, htog₂, hst₁]
    exact recompute_roundtrip tc t.status t.votes.length hfix
  exact ⟨a₂, t₂, hfind₂, htag₂, hv₂, hst₂⟩

/-- Witness for C2: concrete double vote on a threshold-consistent pending tag. -/
theorem vote_tag_double_restores_witness :
    (stateWith tagFresh).store.connected = true ∧
    (∃ a₂ t₂,
      findActivity (voteTag voteDataV 2 (voteTag voteDataV 1 (stateWith tagFresh)).1).1.store.docs
        voteDataV.activityId = some a₂ ∧
      findTag a₂.tags voteDataV.tagId = some t₂ ∧
      t₂.votes = tagFresh.votes ∧ t₂.status = tagFresh.status) :=
  ⟨rfl, vote_tag_double_restores voteDataV 1 2 (stateWith tagFresh) (docWith tagFresh) tagFresh
    rfl (by decide) (by decide) (fun w hw => absurd hw (List.not_mem_nil w)) (by decide)⟩

/-- Counterexample for C2 as stated: for a `pending` tag already holding one
vote with `minimumVotes = 1`, casting and retracting a vote restores the vote
list but leaves the tag `approved`, not `pending` — the pre-vote state is not
restored for every initial status. -/
theorem vote_tag_double_restore_cex :
    ¬ ((doubleVoteResult tagPendingAtThreshold).map (fun t => (t.votes, t.status)) =
        some (tagPendingAtThreshold.votes, tagPendingAtThreshold.status)) := by decide

/-- C3 (amended): under `minimum` semantics with voting enabled, after a
`vote_tag` mutation a tag whose prior status is `pending` or `approved` has
status `approved` iff its new vote count is at least the effective minimum;
tags with prior status `rejected` are never recomputed. -/
theorem vote_tag_threshold_iff (data : VoteTagData) (n₁ : Nat) (s : ServerState)
    (activity : ActivityDoc) (tc : TagCreationSettings) (t : Tag)
    (hconn : s.store.connected = true)
    (hact : findActivity s.store.docs data.activityId = some activity)
    (htc : activity.settings.tagCreation = some tc)
    (hen : tc.enableVoting = true)
    (hty : effectiveThresholdType tc = "minimum")
    (htag : findTag activity.tags data.tagId = some t)
    (hnr : t.status ≠ TagStatus.rejected) :
    ∃ a₂ t₂,
      findActivity (voteTag data n₁ s).1.store.docs data.activityId = some a₂ ∧
      findTag a₂.tags data.tagId = some t₂ ∧
      (t₂.status = TagStatus.approved ↔ effectiveMinVotes tc ≤ t₂.votes.length) := by
  have hdocs₁ := voteTag_docs data n₁ s activity t hconn hact htag
  set a₁ : ActivityDoc := { activity with
    tags := updateFirstTag activity.tags data.tagId
      (fun t' => updateTagVote t' activity.settings.tagCreation data.vote)
    updatedAt := n₁ } with ha₁
  have hfind₁ : findActivity (voteTag data n₁ s).1.store.docs data.activityId = some a₁ := by
    rw [hdocs₁]
    exact findActivity_saveActivity s.store.docs data.activityId activity a₁ hact rfl
  have htag₁ : findTag a₁.tags data.tagId =
      some (updateTagVote t activity.settings.tagCreation data.vote) :=
    findTag_updateFirstTag activity.tags data.tagId _ t htag rfl
  refine ⟨a₁, _, hfind₁, htag₁, ?_⟩
  rw [updateTagVote_status, updateTagVote_votes, htc]
  exact recompute_approved_iff tc t.status _ hen hty hnr

/-- Witness for C3: concrete vote on a fresh pending tag reaching the threshold. -/
theorem vote_tag_threshold_iff_witness :
    tcMinOne.enableVoting = true ∧
    (∃ a₂ t₂,
      findActivity (voteTag voteDataV 1 (stateWith tagFresh)).1.store.docs voteDataV.activityId
        = some a₂ ∧
      findTag a₂.tags voteDataV.tagId = some t₂ ∧
      (t₂.status = TagStatus.approved ↔ effectiveMinVotes tcMinOne ≤ t₂.votes.length)) :=
  ⟨rfl, vote_tag_threshold_iff voteDataV 1 (stateWith tagFresh) (docWith tagFresh) tcMinOne
    tagFresh rfl (by decide) (by decide) rfl (by decide) (by decide) (by decide)⟩

/-- Counterexample for C3 as stated: voting on a `rejected` tag brings its
vote count to the threshold, yet its status stays `rejected` — the
approved-iff-threshold equivalence fails for prior status `rejected`. -/
theorem vote_tag_threshold_iff_cex :
    ¬ (((afterOneVote tagRejected).map Tag.status = some TagStatus.approved) ↔
        ((afterOneVote tagRejected).any fun t =>
          decide (effectiveMinVotes tcMinOne ≤ t.votes.length)) = true) := by decide

theorem participantFrame_refl (uid : Option String) (p : ParticipantDoc) :
    participantFrame uid p p := Or.inl rfl

theorem participantFrame_trans (uid : Option String) (p₁ p₂ p₃ : ParticipantDoc)
    (h₁ : participantFrame uid p₁ p₂) (h₂ : participantFrame uid p₂ p₃) :
    participantFrame uid p₁ p₃ := by
  rcases h₁ with rfl | ⟨hid₁, rfl⟩
  · exact h₂
  · rcases h₂ with rfl | ⟨hid₂, rfl⟩
    · exact Or.inr ⟨hid₁, rfl⟩
    · exact Or.inr ⟨hid₁, rfl⟩

theorem forallTwoRefl {α : Type} {R : α → α → Prop} (h : ∀ a, R a a) :
    ∀ l : List α, List.Forall₂ R l l
  | [] => List.Forall₂.nil
  | a :: rest => List.Forall₂.cons (h a) (forallTwoRefl h rest)

theorem forallTwoTrans {α : Type} {R : α → α → Prop}
    (h : ∀ a b c, R a b → R b c → R a c) :
    ∀ {l₁ l₂ l₃ : List α}, List.Forall₂ R l₁ l₂ → List.Forall₂ R l₂ l₃ →
      List.Forall₂ R l₁ l₃ := by
  intro l₁ l₂ l₃ h₁₂
  induction h₁₂ generalizing l₃ with
  | nil => intro h₂₃; cases h₂₃; exact List.Forall₂.nil
  | cons hab h' ih =>
    intro h₂₃
    cases h₂₃ with
    | cons hbc h'' => exact List.Forall₂.cons (h _ _ _ hab hbc) (ih h'')

theorem docFrame_refl (uid : Option String) (now : Nat) (d : ActivityDoc) :
    docFrame uid now d d :=
  ⟨rfl, rfl, rfl, rfl, rfl, rfl, rfl, rfl, Or.inl rfl,
    forallTwoRefl (participantFrame_refl uid) d.participants⟩

theorem docFrame_trans (uid : Option String) (now : Nat) (d₁ d₂ d₃ : ActivityDoc)
    (h₁ : docFrame uid now d₁ d₂) (h₂ : docFrame uid now d₂ d₃) :
    docFrame uid now d₁ d₃ := by
  obtain ⟨a1, a2, a3, a4, a5, a6, a7, a8, a9, a10⟩ := h₁
  obtain ⟨b1, b2, b3, b4, b5, b6, b7, b8, b9, b10⟩ := h₂
  refine ⟨b1.trans a1, b2.trans a2, b3.trans a3, b4.trans a4, b5.trans a5, b6.trans a6,
    b7.trans a7, b8.trans a8, ?_, forallTwoTrans (participantFrame_trans uid) a10 b10⟩
  rcases b9 with hb | hb
  · rcases a9 with ha | ha
    · exact Or.inl (hb.trans ha)
    · exact Or.inr (hb.trans ha)
  · exact Or.inr hb

theorem setConnectedFalse_frame (ps : List ParticipantDoc) (uid : Option String) :
    List.Forall₂ (participantFrame uid) ps (setConnectedFalse ps uid) := by
  induction ps with
  | nil => exact List.Forall₂.nil
  | cons p rest ih =>
    unfold setConnectedFalse
    by_cases h : some p.id = uid
    · rw [if_pos h]
      exact List.Forall₂.cons (Or.inr ⟨h, rfl⟩) (forallTwoRefl (participantFrame_refl uid) rest)
    · rw [if_neg h]
      exact List.Forall₂.cons (participantFrame_refl uid p) ih

theorem updateOneDisconnect_frame (docs : List ActivityDoc) (aid uid : Option String)
    (now : Nat) :
    List.Forall₂ (docFrame uid now) docs (updateOneDisconnect docs aid uid now).1 := by
  induction docs with
  | nil => exact List.Forall₂.nil
  | cons d rest ih =>
    unfold updateOneDisconnect
    by_cases h : disconnectMatches d aid uid
    · rw [if_pos h]
      exact List.Forall₂.cons
        ⟨rfl, rfl, rfl, rfl, rfl, rfl, rfl, rfl, Or.inr rfl,
          setConnectedFalse_frame d.participants uid⟩
        (forallTwoRefl (docFrame_refl uid now) rest)
    · rw [if_neg h]
      exact List.Forall₂.cons (docFrame_refl uid now d) ih

theorem safeUpdateDisconnect_frame (store : Store) (aid uid : Option String) (now : Nat) :
    List.Forall₂ (docFrame uid now) store.docs (safeUpdateDisconnect store aid uid now).docs := by
  unfold safeUpdateDisconnect
  by_cases h : store.connected = true
  · rw [if_pos h]
    exact updateOneDisconnect_frame store.docs aid uid now
  · rw [if_neg h]
    exact forallTwoRefl (docFrame_refl uid now) store.docs

theorem foldDisconnect_frame (uid : Option String) (now : Nat)
    (l : List (Option String)) :
    ∀ acc : List (Option String × List (Option String)) × Store,
      List.Forall₂ (docFrame uid now) acc.2.docs
        ((l.foldl (disconnectActivity uid now) acc).2.docs) := by
  induction l with
  | nil => intro acc; exact forallTwoRefl (docFrame_refl uid now) acc.2.docs
  | cons a rest ih =>
    intro acc
    rw [List.foldl_cons]
    refine forallTwoTrans (docFrame_trans uid now) ?_ (ih (disconnectActivity uid now acc a))
    exact safeUpdateDisconnect_frame acc.2 a uid now

/-- C8: the durable write performed by `leave_activity` or `disconnect` is a
targeted field-scoped update: in every store document it can only clear the
`isConnected` field of participant entries matching the leaving user and
re-stamp `updatedAt`; the document's tags, mappings, rankings, settings,
phase, status, creation date and all other participants' entries are
unchanged, and this holds for every server state and payload. -/
theorem leave_disconnect_targeted_update (c : String) (aid uid : Option String) (now : Nat)
    (s : ServerState) :
    List.Forall₂ (docFrame uid now) s.store.docs
      (leaveActivity c aid uid now s).1.store.docs ∧
    List.Forall₂ (docFrame (connUserId s c) now) s.store.docs
      (disconnectSocket c now s).1.store.docs := by
  constructor
  · unfold leaveActivity
    dsimp only
    split
    · exact forallTwoRefl (docFrame_refl uid now) s.store.docs
    · split
      · exact forallTwoRefl (docFrame_refl uid now) s.store.docs
      · split
        · split
          · exact safeUpdateDisconnect_frame s.store aid uid now
          · exact forallTwoRefl (docFrame_refl uid now) s.store.docs
        · exact forallTwoRefl (docFrame_refl uid now) s.store.docs
  · unfold disconnectSocket
    unfold connUserId
    dsimp only
    split
    · rename_i conn heq
      split
      · exact foldDisconnect_frame conn.userId now conn.activityIds (s.activities, s.store)
      · exact forallTwoRefl (docFrame_refl conn.userId now) s.store.docs
    · exact forallTwoRefl (docFrame_refl none now) s.store.docs

theorem claimedIn_aset (conns : List (String × Conn)) (c₀ : String) (conn' : Conn)
    (a u : Option String) :
    claimedIn (aset conns c₀ conn') a u ↔
      (conn'.userId = u ∧ a ∈ conn'.activityIds) ∨ claimedInExcept conns c₀ a u := by
  constructor
  · rintro ⟨c, conn, h, hu, ha⟩
    rw [alookup_aset] at h
    by_cases hc : c₀ = c
    · rw [if_pos hc] at h
      injection h with h
      subst h
      exact Or.inl ⟨hu, ha⟩
    · rw [if_neg hc] at h
      exact Or.inr ⟨c, conn, fun he => hc he.symm, h, hu, ha⟩
  · rintro (⟨hu, ha⟩ | ⟨c, conn, hne, h, hu, ha⟩)
    · exact ⟨c₀, conn', by rw [alookup_aset, if_pos rfl], hu, ha⟩
    · refine ⟨c, conn, ?_, hu, ha⟩
      rw [alookup_aset, if_neg fun he => hne he.symm]
      exact h

theorem claimedIn_decompose (conns : List (String × Conn)) (c₀ : String)
    (a u : Option String) :
    claimedIn conns a u ↔
      (∃ conn, alookup conns c₀ = some conn ∧ conn.userId = u ∧ a ∈ conn.activityIds) ∨
      claimedInExcept conns c₀ a u := by
  constructor
  · rintro ⟨c, conn, h, hu, ha⟩
    by_cases hc : c = c₀
    · subst hc
      exact Or.inl ⟨conn, h, hu, ha⟩
    · exact Or.inr ⟨c, conn, hc, h, hu, ha⟩
  · rintro (⟨conn, h, hu, ha⟩ | ⟨c, conn, _, h, hu, ha⟩)
    · exact ⟨c₀, conn, h, hu, ha⟩
    · exact ⟨c, conn, h, hu, ha⟩

theorem claimedIn_adel (conns : List (String × Conn)) (c₀ : String) (a u : Option String) :
    claimedIn (adel conns c₀) a u ↔ claimedInExcept conns c₀ a u := by
  constructor
  · rintro ⟨c, conn, h, hu, ha⟩
    rw [alookup_adel] at h
    by_cases hc : c₀ = c
    · rw [if_pos hc] at h; cases h
    · rw [if_neg hc] at h
      exact ⟨c, conn, fun he => hc he.symm, h, hu, ha⟩
  · rintro ⟨c, conn, hne, h, hu, ha⟩
    refine ⟨c, conn, ?_, hu, ha⟩
    rw [alookup_adel, if_neg fun he => hne he.symm]
    exact h

theorem presentIn_addToActivity (acts : List (Option String × List (Option String)))
    (aid uid a u : Option String) :
    presentIn (addToActivity acts aid uid) a u ↔
      (aid = a ∧ (presentIn acts a u ∨ u = uid)) ∨ (aid ≠ a ∧ presentIn acts a u) := by
  unfold addToActivity
  cases h : alookup acts aid with
  | some set =>
    unfold presentIn
    constructor
    · rintro ⟨set', hs, hm⟩
      rw [alookup_aset] at hs
      by_cases hc : aid = a
      · rw [if_pos hc] at hs
        injection hs with hs
        subst hs
        rw [mem_sadd] at hm
        rcases hm with hm | hm
        · exact Or.inl ⟨hc, Or.inl ⟨set, hc ▸ h, hm⟩⟩
        · exact Or.inl ⟨hc, Or.inr hm⟩
      · rw [if_neg hc] at hs
        exact Or.inr ⟨hc, set', hs, hm⟩
    · rintro (⟨rfl, ⟨set', hs, hm⟩ | rfl⟩ | ⟨hne, set', hs, hm⟩)
      · rw [h] at hs
        injection hs with hs
        subst hs
        exact ⟨sadd set uid, by rw [alookup_aset, if_pos rfl],
          (mem_sadd set u uid).mpr (Or.inl hm)⟩
      · exact ⟨sadd set u, by rw [alookup_aset, if_pos rfl], (mem_sadd set u u).mpr (Or.inr rfl)⟩
      · exact ⟨set', by rw [alookup_aset, if_neg hne]; exact hs, hm⟩
  | none =>
    unfold presentIn
    constructor
    · rintro ⟨set', hs, hm⟩
      by_cases hc : aid = a
      · subst hc
        rw [alookup_append_of_none acts _ aid h] at hs
        simp only [alookup, if_pos rfl] at hs
        injection hs with hs
        subst hs
        rcases List.mem_singleton.mp hm with rfl
        exact Or.inl ⟨rfl, Or.inr rfl⟩
      · cases h₀ : alookup acts a with
        | some set₀ =>
          rw [alookup_append_of_some acts _ a set₀ h₀] at hs
          injection hs with hs
          exact Or.inr ⟨hc, set₀, rfl, by rw [hs]; exact hm⟩
        | none =>
          rw [alookup_append_of_none acts _ a h₀] at hs
          simp only [alookup, if_neg hc] at hs
          cases hs
    · rintro (⟨rfl, ⟨set', hs, hm⟩ | rfl⟩ | ⟨hne, set', hs, hm⟩)
      · rw [h] at hs; cases hs
      · refine ⟨[u], ?_, List.mem_singleton.mpr rfl⟩
        rw [alookup_append_of_none acts _ aid h]
        simp [alookup]
      · exact ⟨set', alookup_append_of_some acts _ a set' hs, hm⟩

theorem presentIn_remove (acts : List (Option String × List (Option String)))
    (aid uid : Option String) (set : List (Option String))
    (h : alookup acts aid = some set) (a u : Option String) :
    presentIn (if sdel set uid = [] then adel acts aid else aset acts aid (sdel set uid)) a u ↔
      (aid = a ∧ u ∈ set ∧ u ≠ uid) ∨ (aid ≠ a ∧ presentIn acts a u) := by
  by_cases he : sdel set uid = []
  · rw [if_pos he]
    unfold presentIn
    constructor
    · rintro ⟨set', hs, hm⟩
      rw [alookup_adel] at hs
      by_cases hc : aid = a
      · rw [if_pos hc] at hs; cases hs
      · rw [if_neg hc] at hs
        exact Or.inr ⟨hc, set', hs, hm⟩
    · rintro (⟨rfl, hm, hne⟩ | ⟨hne, set', hs, hm⟩)
      · have hmem : u ∈ sdel set uid := (mem_sdel set u uid).mpr ⟨hm, hne⟩
        rw [he] at hmem
        cases hmem
      · exact ⟨set', by rw [alookup_adel, if_neg hne]; exact hs, hm⟩
  · rw [if_neg he]
    unfold presentIn
    constructor
    · rintro ⟨set', hs, hm⟩
      rw [alookup_aset] at hs
      by_cases hc : aid = a
      · rw [if_pos hc] at hs
        injection hs with hs
        subst hs
        have hm' := (mem_sdel set u uid).mp hm
        exact Or.inl ⟨hc, hm'.1, hm'.2⟩
      · rw [if_neg hc] at hs
        exact Or.inr ⟨hc, set', hs, hm⟩
    · rintro (⟨rfl, hm, hne⟩ | ⟨hne, set', hs, hm⟩)
      · exact ⟨sdel set uid, by rw [alookup_aset, if_pos rfl],
          (mem_sdel set u uid).mpr ⟨hm, hne⟩⟩
      · exact ⟨set', by rw [alookup_aset, if_neg hne]; exact hs, hm⟩

theorem presenceInv_connect (cfg : ServerConfig) (owner : String → String) (c : String)
    (s : ServerState) (hInv : presenceInv owner s)
    (hfresh : alookup s.connections c = none) :
    presenceInv owner (connectSocket cfg c s).1 := by
  obtain ⟨hW, hP⟩ := hInv
  unfold connectSocket
  dsimp only
  split
  · exact ⟨hW, hP⟩
  · refine ⟨?_, ?_⟩
    · intro c' conn' h'
      dsimp only at h'
      rw [alookup_aset] at h'
      by_cases hc : c = c'
      · rw [if_pos hc] at h'
        injection h' with h'
        subst h'
        exact Or.inl ⟨rfl, rfl⟩
      · rw [if_neg hc] at h'
        exact hW c' conn' h'
    · intro a u
      dsimp only
      rw [claimedIn_aset]
      constructor
      · intro hp
        rcases (claimedIn_decompose s.connections c a u).mp ((hP a u).mp hp) with
          ⟨conn, hcn, _, _⟩ | hex
        · rw [hfresh] at hcn; cases hcn
        · exact Or.inr hex
      · rintro (⟨_, ha⟩ | hex)
        · exact absurd ha (List.not_mem_nil a)
        · exact (hP a u).mpr ((claimedIn_decompose s.connections c a u).mpr (Or.inr hex))

theorem presenceInv_join (owner : String → String) (c : String) (a₀ : String)
    (un : Option String) (now : Nat) (s : ServerState)
    (hInv : presenceInv owner s)
    (hinj : ∀ x y, owner x = owner y → x = y)
    (hreg : (alookup s.connections c).isSome = true) :
    presenceInv owner (joinActivity c (some a₀) (some (owner c)) un now s).1 := by
  obtain ⟨hW, hP⟩ := hInv
  cases hc : alookup s.connections c with
  | none => rw [hc] at hreg; cases hreg
  | some conn =>
    unfold joinActivity
    dsimp only
    rw [hc]
    dsimp only
    by_cases hmem : (some a₀) ∈ conn.activityIds
    · rw [if_pos (by simp [alreadyInActivity, hmem])]
      exact ⟨hW, hP⟩
    · rw [if_neg (by simp [alreadyInActivity, hmem])]
      have hWc := hW c conn hc
      refine ⟨?_, ?_⟩
      · intro c' conn' h'
        dsimp only at h'
        rw [alookup_aset] at h'
        by_cases hcc : c = c'
        · rw [if_pos hcc] at h'
          injection h' with h'
          subst h'
          exact Or.inr (by rw [← hcc])
        · rw [if_neg hcc] at h'
          exact hW c' conn' h'
      · intro a u
        dsimp only
        rw [presentIn_addToActivity, claimedIn_aset]
        have hdec := claimedIn_decompose s.connections c a u
        by_cases hca : (some a₀ : Option String) = a
        · subst hca
          constructor
          · rintro (⟨_, hin | rfl⟩ | ⟨hne, _⟩)
            · rcases hdec.mp ((hP _ u).mp hin) with ⟨conn₀, hcn, hu, ha⟩ | hex
              · rw [hc] at hcn
                injection hcn with hcn
                subst hcn
                exact absurd ha hmem
              · exact Or.inr hex
            · exact Or.inl ⟨rfl, (mem_sadd _ _ _).mpr (Or.inr rfl)⟩
            · exact absurd rfl hne
          · rintro (⟨hu, _⟩ | hex)
            · exact Or.inl ⟨rfl, Or.inr hu.symm⟩
            · exact Or.inl ⟨rfl, Or.inl ((hP _ u).mpr (hdec.mpr (Or.inr hex)))⟩
        · constructor
          · rintro (⟨he, _⟩ | ⟨_, hin⟩)
            · exact absurd he hca
            · rcases hdec.mp ((hP a u).mp hin) with ⟨conn₀, hcn, hu, ha⟩ | hex
              · rw [hc] at hcn
                injection hcn with hcn
                subst hcn
                rcases hWc with ⟨_, hemp⟩ | huo
                · rw [hemp] at ha
                  exact absurd ha (List.not_mem_nil a)
                · exact Or.inl ⟨huo.symm.trans hu, (mem_sadd _ _ _).mpr (Or.inl ha)⟩
              · exact Or.inr hex
          · rintro (⟨hu, ha⟩ | hex)
            · have ha' : a ∈ conn.activityIds := by
                rcases (mem_sadd _ _ _).mp ha with h' | h'
                · exact h'
                · exact absurd h'.symm hca
              rcases hWc with ⟨_, hemp⟩ | huo
              · rw [hemp] at ha'
                exact absurd ha' (List.not_mem_nil a)
              · exact Or.inr ⟨hca, (hP a u).mpr (hdec.mpr (Or.inl ⟨conn, hc, huo.trans hu, ha'⟩))⟩
            · exact Or.inr ⟨hca, (hP a u).mpr (hdec.mpr (Or.inr hex))⟩

theorem presenceInv_leave (owner : String → String) (c : String) (a₀ : String)
    (now : Nat) (s : ServerState)
    (hInv : presenceInv owner s)
    (hinj : ∀ x y, owner x = owner y → x = y)
    (hne : ∀ x, owner x ≠ "")
    (hreg : (alookup s.connections c).isSome = true) :
    presenceInv owner (leaveActivity c (some a₀) (some (owner c)) now s).1 := by
  obtain ⟨hW, hP⟩ := hInv
  cases hc : alookup s.connections c with
  | none => rw [hc] at hreg; cases hreg
  | some conn =>
    have hWc := hW c conn hc
    unfold leaveActivity
    dsimp only
    by_cases ha₀ : a₀ = ""
    · rw [if_pos (by subst ha₀; simp [jsTruthyS])]
      exact ⟨hW, hP⟩
    · rw [if_neg (by simp [jsTruthyS, hne c, ha₀])]
      split
      · exact ⟨hW, hP⟩
      · rw [hc]
        dsimp only
        have hWnew : ∀ c' conn',
            alookup (aset s.connections c
              { conn with activityIds := sdel conn.activityIds (some a₀) }) c' = some conn' →
            (conn'.userId = none ∧ conn'.activityIds = []) ∨ conn'.userId = some (owner c') := by
          intro c' conn' h'
          rw [alookup_aset] at h'
          by_cases hcc : c = c'
          · rw [if_pos hcc] at h'
            injection h' with h'
            subst h'
            rcases hWc with ⟨hn, hemp⟩ | huo
            · exact Or.inl ⟨hn, by rw [hemp]; rfl⟩
            · exact Or.inr (by rw [← hcc]; exact huo)
          · rw [if_neg hcc] at h'
            exact hW c' conn' h'
        cases hacts : alookup s.activities (some a₀) with
        | none =>
          refine ⟨hWnew, ?_⟩
          intro a u
          dsimp only
          rw [claimedIn_aset]
          have hdec := claimedIn_decompose s.connections c a u
          constructor
          · intro hp
            rcases hdec.mp ((hP a u).mp hp) with ⟨conn₀, hcn, hu, ha⟩ | hex
            · rw [hc] at hcn
              injection hcn with hcn
              subst hcn
              by_cases haa : (some a₀ : Option String) = a
              · obtain ⟨set, hs, _⟩ := hp
                rw [← haa, hacts] at hs
                cases hs
              · exact Or.inl ⟨hu, (mem_sdel _ _ _).mpr ⟨ha, fun he => haa he.symm⟩⟩
            · exact Or.inr hex
          · rintro (⟨hu, ha⟩ | hex)
            · have ha' := (mem_sdel _ _ _).mp ha
              exact (hP a u).mpr (hdec.mpr (Or.inl ⟨conn, hc, hu, ha'.1⟩))
            · exact (hP a u).mpr (hdec.mpr (Or.inr hex))
        | some set =>
          dsimp only
          by_cases hpm : (some (owner c) : Option String) ∈ set
          · rw [if_pos hpm]
            refine ⟨hWnew, ?_⟩
            intro a u
            dsimp only
            rw [presentIn_remove s.activities (some a₀) (some (owner c)) set hacts,
              claimedIn_aset]
            have hdec := claimedIn_decompose s.connections c a u
            constructor
            · rintro (⟨haa, hm, hneu⟩ | ⟨hna, hin⟩)
              · subst haa
                have hp : presentIn s.activities (some a₀) u := ⟨set, hacts, hm⟩
                rcases hdec.mp ((hP _ u).mp hp) with ⟨conn₀, hcn, hu, ha⟩ | hex
                · rw [hc] at hcn
                  injection hcn with hcn
                  subst hcn
                  rcases hWc with ⟨_, hemp⟩ | huo
                  · rw [hemp] at ha
                    exact absurd ha (List.not_mem_nil _)
                  · exact absurd (huo.symm.trans hu).symm hneu
                · exact Or.inr hex
              · rcases hdec.mp ((hP a u).mp hin) with ⟨conn₀, hcn, hu, ha⟩ | hex
                · rw [hc] at hcn
                  injection hcn with hcn
                  subst hcn
                  exact Or.inl ⟨hu, (mem_sdel _ _ _).mpr ⟨ha, fun he => hna he.symm⟩⟩
                · exact Or.inr hex
            · rintro (⟨hu, ha⟩ | hex)
              · have ha' := (mem_sdel _ _ _).mp ha
                exact Or.inr ⟨fun he => ha'.2 he.symm,
                  (hP a u).mpr (hdec.mpr (Or.inl ⟨conn, hc, hu, ha'.1⟩))⟩
              · have hp : presentIn s.activities a u :=
                  (hP a u).mpr (hdec.mpr (Or.inr hex))
                by_cases haa : (some a₀ : Option String) = a
                · subst haa
                  obtain ⟨set₂, hs, hm⟩ := hp
                  rw [hacts] at hs
                  injection hs with hs
                  subst hs
                  refine Or.inl ⟨rfl, hm, ?_⟩
                  obtain ⟨c₁, conn₁, hc₁ne, hcn₁, hu₁, ha₁⟩ := hex
                  rcases hW c₁ conn₁ hcn₁ with ⟨_, hemp₁⟩ | huo₁
                  · rw [hemp₁] at ha₁
                    exact absurd ha₁ (List.not_mem_nil _)
                  · intro hue
                    rw [← hu₁, huo₁] at hue
                    injection hue with hue
                    exact hc₁ne (hinj c₁ c hue)
                · exact Or.inr ⟨haa, hp⟩
          · rw [if_neg hpm]
            refine ⟨hWnew, ?_⟩
            intro a u
            dsimp only
            rw [claimedIn_aset]
            have hdec := claimedIn_decompose s.connections c a u
            constructor
            · intro hp
              rcases hdec.mp ((hP a u).mp hp) with ⟨conn₀, hcn, hu, ha⟩ | hex
              · rw [hc] at hcn
                injection hcn with hcn
                subst hcn
                by_cases haa : (some a₀ : Option String) = a
                · rcases hWc with ⟨_, hemp⟩ | huo
                  · rw [hemp] at ha
                    exact absurd ha (List.not_mem_nil _)
                  · obtain ⟨set₂, hs, hm⟩ := hp
                    rw [← haa, hacts] at hs
                    injection hs with hs
                    subst hs
                    rw [← hu, huo] at hm
                    exact absurd hm hpm
                · exact Or.inl ⟨hu, (mem_sdel _ _ _).mpr ⟨ha, fun he => haa he.symm⟩⟩
              · exact Or.inr hex
            · rintro (⟨hu, ha⟩ | hex)
              · have ha' := (mem_sdel _ _ _).mp ha
                exact (hP a u).mpr (hdec.mpr (Or.inl ⟨conn, hc, hu, ha'.1⟩))
              · exact (hP a u).mpr (hdec.mpr (Or.inr hex))

theorem presentIn_foldDisconnect (uid : Option String) (now : Nat)
    (l : List (Option String)) :
    ∀ (acc : List (Option String × List (Option String)) × Store) (a u : Option String),
      presentIn (l.foldl (disconnectActivity uid now) acc).1 a u ↔
        (presentIn acc.1 a u ∧ ¬ (a ∈ l ∧ u = uid)) := by
  induction l with
  | nil =>
    intro acc a u
    simp
  | cons a₁ rest ih =>
    intro acc a u
    rw [List.foldl_cons, ih (disconnectActivity uid now acc a₁) a u]
    have hstep : presentIn (disconnectActivity uid now acc a₁).1 a u ↔
        (presentIn acc.1 a u ∧ ¬ (a = a₁ ∧ u = uid)) := by
      unfold disconnectActivity
      dsimp only
      cases hl : alookup acc.1 a₁ with
      | none =>
        dsimp only
        constructor
        · intro hp
          refine ⟨hp, ?_⟩
          rintro ⟨rfl, _⟩
          obtain ⟨set, hs, _⟩ := hp
          rw [hl] at hs
          cases hs
        · exact fun h => h.1
      | some set =>
        dsimp only
        rw [presentIn_remove acc.1 a₁ uid set hl a u]
        constructor
        · rintro (⟨rfl, hm, hneu⟩ | ⟨hna, hp⟩)
          · exact ⟨⟨set, hl, hm⟩, fun h => hneu h.2⟩
          · exact ⟨hp, fun h => hna h.1.symm⟩
        · rintro ⟨hp, hno⟩
          by_cases haa : a₁ = a
          · subst haa
            obtain ⟨set₂, hs, hm⟩ := hp
            rw [hl] at hs
            injection hs with hs
            subst hs
            exact Or.inl ⟨rfl, hm, fun hu => hno ⟨rfl, hu⟩⟩
          · exact Or.inr ⟨haa, hp⟩
    rw [hstep]
    constructor
    · rintro ⟨⟨hp, h₁⟩, h₂⟩
      refine ⟨hp, ?_⟩
      rintro ⟨hmem, hu⟩
      rcases List.mem_cons.mp hmem with rfl | hmem'
      · exact h₁ ⟨rfl, hu⟩
      · exact h₂ ⟨hmem', hu⟩
    · rintro ⟨hp, hno⟩
      exact ⟨⟨hp, fun h => hno ⟨by rw [h.1]; exact List.mem_cons_self a₁ rest, h.2⟩⟩,
        fun h => hno ⟨List.mem_cons_of_mem a₁ h.1, h.2⟩⟩

theorem presenceInv_disc (owner : String → String) (c : String) (now : Nat)
    (s : ServerState) (hInv : presenceInv owner s)
    (hinj : ∀ x y, owner x = owner y → x = y)
    (hne : ∀ x, owner x ≠ "") :
    presenceInv owner (disconnectSocket c now s).1 := by
  obtain ⟨hW, hP⟩ := hInv
  have hWdel : ∀ c' conn', alookup (adel s.connections c) c' = some conn' →
      (conn'.userId = none ∧ conn'.activityIds = []) ∨ conn'.userId = some (owner c') := by
    intro c' conn' h'
    rw [alookup_adel] at h'
    by_cases hcc : c = c'
    · rw [if_pos hcc] at h'; cases h'
    · rw [if_neg hcc] at h'
      exact hW c' conn' h'
  unfold disconnectSocket
  dsimp only
  cases hc : alookup s.connections c with
  | none =>
    dsimp only
    refine ⟨hWdel, ?_⟩
    intro a u
    dsimp only
    rw [claimedIn_adel]
    have hdec := claimedIn_decompose s.connections c a u
    constructor
    · intro hp
      rcases hdec.mp ((hP a u).mp hp) with ⟨conn₀, hcn, _, _⟩ | hex
      · rw [hc] at hcn; cases hcn
      · exact hex
    · intro hex
      exact (hP a u).mpr (hdec.mpr (Or.inr hex))
  | some conn =>
    dsimp only
    have hWc := hW c conn hc
    by_cases htr : jsTruthyS conn.userId = true
    · rw [if_pos htr]
      have huo : conn.userId = some (owner c) := by
        rcases hWc with ⟨hn, _⟩ | huo
        · rw [hn] at htr; cases htr
        · exact huo
      refine ⟨hWdel, ?_⟩
      intro a u
      dsimp only
      rw [presentIn_foldDisconnect conn.userId now conn.activityIds (s.activities, s.store) a u]
      rw [claimedIn_adel]
      have hdec := claimedIn_decompose s.connections c a u
      constructor
      · rintro ⟨hp, hno⟩
        rcases hdec.mp ((hP a u).mp hp) with ⟨conn₀, hcn, hu, ha⟩ | hex
        · rw [hc] at hcn
          injection hcn with hcn
          subst hcn
          exact absurd ⟨ha, hu.symm⟩ hno
        · exact hex
      · intro hex
        refine ⟨(hP a u).mpr (hdec.mpr (Or.inr hex)), ?_⟩
        rintro ⟨hmem, hu⟩
        obtain ⟨c₁, conn₁, hc₁ne, hcn₁, hu₁, ha₁⟩ := hex
        rcases hW c₁ conn₁ hcn₁ with ⟨_, hemp₁⟩ | huo₁
        · rw [hemp₁] at ha₁
          exact absurd ha₁ (List.not_mem_nil _)
        · have h₁ : u = some (owner c₁) := hu₁.symm.trans huo₁
          have h₂ : some (owner c₁) = some (owner c) := h₁.symm.trans (hu.trans huo)
          injection h₂ with h₂
          exact hc₁ne (hinj c₁ c h₂)
    · rw [if_neg htr]
      have hn : conn.userId = none ∧ conn.activityIds = [] := by
        rcases hWc with h | huo
        · exact h
        · rw [huo] at htr
          simp [jsTruthyS, hne c] at htr
      refine ⟨hWdel, ?_⟩
      intro a u
      dsimp only
      rw [claimedIn_adel]
      have hdec := claimedIn_decompose s.connections c a u
      constructor
      · intro hp
        rcases hdec.mp ((hP a u).mp hp) with ⟨conn₀, hcn, hu, ha⟩ | hex
        · rw [hc] at hcn
          injection hcn with hcn
          subst hcn
          rw [hn.2] at ha
          exact absurd ha (List.not_mem_nil _)
        · exact hex
      · intro hex
        exact (hP a u).mpr (hdec.mpr (Or.inr hex))

theorem presenceInv_step (cfg : ServerConfig) (owner : String → String) (now : Nat)
    (s : ServerState) (e : Ev) (hInv : presenceInv owner s)
    (hinj : ∀ x y, owner x = owner y → x = y) (hne : ∀ x, owner x ≠ "")
    (hv : validEvB s e = true) :
    presenceInv owner (stepEv cfg owner now s e) := by
  cases e with
  | connect c =>
    have hfresh : alookup s.connections c = none := by
      simpa [validEvB] using hv
    exact presenceInv_connect cfg owner c s hInv hfresh
  | join c a un =>
    have hreg : (alookup s.connections c).isSome = true := by
      simpa [validEvB] using hv
    exact presenceInv_join owner c a un now s hInv hinj hreg
  | leave c a =>
    have hreg : (alookup s.connections c).isSome = true := by
      simpa [validEvB] using hv
    exact presenceInv_leave owner c a now s hInv hinj hne hreg
  | disc c =>
    exact presenceInv_disc owner c now s hInv hinj hne

theorem presenceInv_runTrace (cfg : ServerConfig) (owner : String → String) (now : Nat)
    (hinj : ∀ x y, owner x = owner y → x = y) (hne : ∀ x, owner x ≠ "") :
    ∀ (evs : List Ev) (s : ServerState), presenceInv owner s →
      validTraceB cfg owner now s evs = true →
      presenceInv owner (runTrace cfg owner now s evs) := by
  intro evs
  induction evs with
  | nil =>
    intro s hInv _
    exact hInv
  | cons e rest ih =>
    intro s hInv hv
    simp only [validTraceB, Bool.and_eq_true] at hv
    simp only [runTrace]
    exact ih (stepEv cfg owner now s e)
      (presenceInv_step cfg owner now s e hInv hinj hne hv.1) hv.2

theorem presenceInv_boot (owner : String → String) (st : Store) :
    presenceInv owner (bootState st) := by
  constructor
  · intro c conn h
    simp [bootState, alookup] at h
  · intro a u
    constructor
    · rintro ⟨set, hs, _⟩
      simp [bootState, alookup] at hs
    · rintro ⟨c, conn, h, _⟩
      simp [bootState, alookup] at h

/-- C1 (amended): for every deliverable sequence of connect, `join_activity`,
`leave_activity` and `disconnect` events in which each socket always
authenticates with its own fixed, non-empty user id (`owner`) and distinct
sockets carry distinct user ids, the in-memory presence set of every activity
equals, after every event, the set of participant identifiers claimed by at
least one currently-registered connection that has joined that activity.
Without the one-connection-per-participant discipline the equality fails
(see the two-tabs counterexample). -/
theorem presence_matches_registry (cfg : ServerConfig) (owner : String → String)
    (hinj : ∀ x y, owner x = owner y → x = y) (hne : ∀ x, owner x ≠ "")
    (now : Nat) (st : Store) (evs : List Ev)
    (hv : validTraceB cfg owner now (bootState st) evs = true) (a u : Option String) :
    inPresence (runTrace cfg owner now (bootState st) evs) a u ↔
      claimedByRegistered (runTrace cfg owner now (bootState st) evs) a u :=
  (presenceInv_runTrace cfg owner now hinj hne evs (bootState st)
    (presenceInv_boot owner st) hv).2 a u

theorem pushOwner_inj : ∀ x y : String, pushOwner x = pushOwner y → x = y := by
  intro x y h
  have hd := congrArg String.data h
  simp only [pushOwner, String.data_push] at hd
  exact String.ext (List.append_left_injective ['x'] hd)

theorem pushOwner_ne : ∀ x : String, pushOwner x ≠ "" := by
  intro x h
  have hd := congrArg String.data h
  simp only [pushOwner, String.data_push] at hd
  simp at hd



/-- Witness for C1: a concrete deliverable trace (connect then join) at a
concrete activity and participant. -/
theorem presence_matches_registry_witness :
    validTraceB cfgDefault pushOwner 0 (bootState emptyStore) demoTrace = true ∧
    (inPresence (runTrace cfgDefault pushOwner 0 (bootState emptyStore) demoTrace)
        (some "a") (some (pushOwner "c1")) ↔
      claimedByRegistered (runTrace cfgDefault pushOwner 0 (bootState emptyStore) demoTrace)
        (some "a") (some (pushOwner "c1"))) :=
  ⟨by decide, presence_matches_registry cfgDefault pushOwner pushOwner_inj pushOwner_ne 0
    emptyStore demoTrace (by decide) (some "a") (some (pushOwner "c1"))⟩

/-- Counterexample for C1 as stated: participant `u` holds two connections in
activity `a` and one of them leaves; the presence entry for `a` is gone while
the other registered connection still claims it, so the presence set does not
equal the claimed set. -/
theorem presence_two_tabs_cex :
    ¬ (inPresence twoTabsState (some "a") (some "u") ↔
        claimedByRegistered twoTabsState (some "a") (some "u")) := by
  intro h
  have hcl : claimedByRegistered twoTabsState (some "a") (some "u") :=
    ⟨"c1", { userId := some "u", activityIds := [some "a"] }, by decide, rfl, by decide⟩
  obtain ⟨set, hs, _⟩ := h.mpr hcl
  have hacts : twoTabsState.activities = [] := by decide
  rw [hacts] at hs
  exact Option.noConfusion hs
